import Mathlib

/-!
Verification of the dynamic-configuration reconciliation subsystem of the
cluster-autoscaler fork: the compact node-group spec parser/serializer
(`node_group_spec.go`), the `Config` model and validator (`config.go`), the
change-detecting `ConfigFetcher` (`config_fetcher.go`), the
`AutoscalerBuilder` with its profile merge (`autoscaler_builder.go`), the
`DynamicAutoscaler` reload loop, and the Azure scale-set instance cache.

Modelling conventions:
- Go strings are modelled as `List Char` (`Str`); Go byte-wise operations on
  the repository inputs coincide with character-wise ones on this model.
- Go `int`/`int64` are modelled as `Int`; the parsers clamp at the int64
  bounds exactly where the Go standard library does.
- Go slices and maps distinguish nil from empty; they are modelled as
  `Option (List _)` with `none` standing for nil, so that structural
  equality of the model agrees with `reflect.DeepEqual`.
- Fallible Go functions returning `(T, error)` are modelled with `Option`
  or `Except`; external collaborators (file system, cloud SDK) enter as
  explicit outcome parameters.
-/

/-- Go string, modelled as its list of characters. -/
abbrev Str := List Char

/-- Coercion from a Lean string literal to the Go string model. -/
def str (s : String) : Str := s.data

/-! ### strings.SplitN / strings.Split / strings.Join (single-character separators) -/

/-- Helper for the Go split functions: split a string at the first occurrence
of the separator, returning the part before and the part after it, or `none`
when the separator does not occur. -/
def splitFirst : Str → Char → Option (Str × Str)
  | [], _ => none
  | c :: cs, sep =>
    if c = sep then some ([], cs)
    else (splitFirst cs sep).map (fun p => (c :: p.1, p.2))

/-- Go strings.Split with a one-character separator: unlimited splitting;
the result is never empty (splitting the empty string yields `[[]]`). -/
def goSplit : Str → Char → List Str
  | [], _ => [[]]
  | c :: cs, sep =>
    if c = sep then [] :: goSplit cs sep
    else
      match goSplit cs sep with
      | t :: ts => (c :: t) :: ts
      | [] => [[c]]

/-- Go strings.SplitN with a one-character separator and count `n > 0`: at
most `n` tokens, the last token keeping any remaining separators; `n = 0`
yields the empty list as in Go. -/
def goSplitN : Str → Char → Nat → List Str
  | _, _, 0 => []
  | s, _, 1 => [s]
  | s, sep, n + 2 =>
    match splitFirst s sep with
    | none => [s]
    | some (a, b) => a :: goSplitN b sep (n + 1)

/-- Go strings.Join with a one-character separator. -/
def goJoin : List Str → Char → Str
  | [], _ => []
  | [t], _ => t
  | t :: ts, sep => t ++ sep :: goJoin ts sep

/-! ### strconv.Atoi / strconv.ParseInt(s, 10, 64) -/

/-- Decimal digit run check. -/
def allDigits (s : Str) : Bool := s.all Char.isDigit

/-- Value of a run of decimal digits (most significant first). -/
def digitsVal (s : Str) : Nat := s.foldl (fun acc c => acc * 10 + (c.toNat - '0'.toNat)) 0

/-- Hexadecimal digit test. -/
def isHexDigitC (c : Char) : Bool :=
  c.isDigit || ('a' ≤ c.toLower && c.toLower ≤ 'f')

/-- Hexadecimal digit value. -/
def hexDigitVal (c : Char) : Nat :=
  if c.isDigit then c.toNat - '0'.toNat else c.toLower.toNat - 'a'.toNat + 10

/-- Value of a run of hexadecimal digits. -/
def hexVal (s : Str) : Nat := s.foldl (fun acc c => acc * 16 + hexDigitVal c) 0

/-- Syntax of a Go base-10 integer accepted by strconv.Atoi / ParseInt: an
optional sign followed by at least one digit (no underscores in base 10). -/
def isGoInt : Str → Bool
  | [] => false
  | c :: ds =>
    if c = '+' ∨ c = '-' then ds ≠ [] && allDigits ds
    else allDigits (c :: ds)

/-- Mathematical value of a syntactically valid Go integer string. -/
def goIntVal : Str → Int
  | [] => 0
  | c :: ds =>
    if c = '+' then (digitsVal ds : Int)
    else if c = '-' then -(digitsVal ds : Int)
    else (digitsVal (c :: ds) : Int)

/-- Largest int64 value. -/
def int64Max : Int := 9223372036854775807

/-- Smallest int64 value. -/
def int64Min : Int := -9223372036854775808

/-- Go strconv.ParseInt(s, 10, 64), also strconv.Atoi on a 64-bit platform:
returns the parsed value and a success flag. A syntactically invalid string
yields `(0, false)`; an out-of-range value yields the clamped int64 bound
together with `false`, exactly as the Go function returns `ErrRange` with
the clamped value. -/
def goParseInt64 (s : Str) : Int × Bool :=
  if isGoInt s then
    let v := goIntVal s
    if v < int64Min then (int64Min, false)
    else if int64Max < v then (int64Max, false)
    else (v, true)
  else (0, false)

/-- Go strconv.Atoi (64-bit platform). -/
def goAtoi (s : Str) : Int × Bool := goParseInt64 s

/-! ### Data model: NodeGroupSpec, AutoScalerProfile, Config -/

/-- ScaleDownPolicy is a Go string type (cloudprovider.ScaleDownPolicy). -/
abbrev ScaleDownPolicy := Str

/-- cloudprovider.Delete. -/
def policyDelete : ScaleDownPolicy := str "Delete"

/-- cloudprovider.Deallocate. -/
def policyDeallocate : ScaleDownPolicy := str "Deallocate"

/-- NodeGroupSpec from node_group_spec.go. `labels` is a Go
map[string]string: `none` is the nil map, `some m` a non-nil map whose
canonical representation is an association list sorted strictly by key. -/
structure NodeGroupSpec where
  name : Str := []
  minSize : Int := 0
  maxSize : Int := 0
  taints : Str := []
  labels : Option (List (Str × Str)) := none
  scaleDownPolicy : ScaleDownPolicy := []
  supportScaleToZero : Bool := false
deriving DecidableEq, Repr

/-- AutoScalerProfile: the flat struct of optional string-typed tunables.
The field set is the union of the fields declared in config.go and the
fields read by updateAutoScalerProfile in autoscaler_builder.go (the
builder requires fields beyond the config.go snapshot). The Go zero value
of every field is the empty string. -/
structure AutoScalerProfile where
  scanInterval : Str := []
  scaleDownDelayAfterAdd : Str := []
  scaleDownDelayAfterDelete : Str := []
  scaleDownDelayAfterFailure : Str := []
  scaleDownUnneededTime : Str := []
  scaleDownUnreadyTime : Str := []
  scaleDownUtilizationThreshold : Str := []
  maxGracefulTerminationSec : Str := []
  balanceSimilarNodeGroups : Str := []
  expander : Str := []
  newPodScaleUpDelay : Str := []
  maxEmptyBulkDelete : Str := []
  skipNodesWithLocalStorage : Str := []
  skipNodesWithSystemPods : Str := []
  maxCloudProviderNodeDeletionTime : Str := []
  maxNodeProvisionTime : Str := []
  enableGetVmss : Str := []
  getVmssSizeRefreshPeriod : Str := []
  enableForceDelete : Str := []
  enableDynamicInstanceList : Str := []
  minCpu : Str := []
  maxCpu : Str := []
  minMemory : Str := []
  maxMemory : Str := []
  okTotalUnreadyCount : Str := []
  maxTotalUnreadyPercentage : Str := []
  daemonSetEvictionForEmptyNodes : Str := []
  daemonSetEvictionForOccupiedNodes : Str := []
deriving DecidableEq, Repr

/-- Config from config.go. `nodeGroups` is a Go slice: `none` models the
nil slice (for example after decoding a document without a nodeGroups key),
`some l` a non-nil slice; `reflect.DeepEqual` distinguishes the two, and so
does equality of this model. -/
structure Config where
  nodeGroups : Option (List NodeGroupSpec) := none
  autoScalerProfile : AutoScalerProfile := {}
deriving DecidableEq, Repr

/-- NewDefaultConfig from config.go: the empty but non-nil node-group list
and the zero-valued profile. -/
def NewDefaultConfig : Config :=
  { nodeGroups := some [], autoScalerProfile := {} }

/-! ### Config.validate (config.go) -/

/-- Validation error of Config.validate, carrying what the corresponding Go
error message carries. -/
inductive ConfigValidateErr where
  | blankName
  | maxLtMin (name : Str)
deriving DecidableEq, Repr

/-- One-group check used by Config.validate, in source order: blank name
first, then max < min. The config.go validator checks nothing else (in
particular it does not check scaleDownPolicy). -/
def validateGroup (g : NodeGroupSpec) : Option ConfigValidateErr :=
  if g.name = [] then some .blankName
  else if g.maxSize < g.minSize then some (.maxLtMin g.name)
  else none

/-- Config.validate from config.go: iterate the node groups in input order
and return the first violation. A nil slice iterates zero times. -/
def Config.validate (c : Config) : Option ConfigValidateErr :=
  go (c.nodeGroups.getD [])
where
  /-- Fold over the groups returning the first error. -/
  go : List NodeGroupSpec → Option ConfigValidateErr
    | [] => none
    | g :: gs =>
      match validateGroup g with
      | some e => some e
      | none => go gs

/-! ### ConfigFetcher (config_fetcher.go) -/

/-- Outcome of the external file-system and decode steps of one
FetchConfigIfUpdated call: the open can fail, BuildConfig (decode plus
validate) can fail, the close can fail after a successful decode, or
everything succeeds yielding the decoded-and-validated Config. -/
inductive FetchOutcome where
  | openErr
  | buildErr
  | closeErr (c : Config)
  | ok (c : Config)
deriving DecidableEq, Repr

/-- Error cases of FetchConfigIfUpdated, in the order the code can hit
them. -/
inductive FetchErr where
  | failedOpen
  | failedLoad
  | failedClose
deriving DecidableEq, Repr

/-- State of the configFetcher struct: the last accepted baseline. -/
structure FetcherState where
  previousConfiguration : Config
deriving DecidableEq, Repr

/-- NewConfigFetcher: the baseline starts as NewDefaultConfig. -/
def NewConfigFetcher : FetcherState :=
  { previousConfiguration := NewDefaultConfig }

/-- FetchConfigIfUpdated from config_fetcher.go, as a step function over
the fetcher state given the outcome of the external steps: errors return
before the comparison; on success the decoded config is compared by
reflect.DeepEqual with the baseline, returning nil when equal and the new
config (stored as the new baseline) when different. -/
def FetchConfigIfUpdated :
    FetchOutcome → FetcherState → Except FetchErr (Option Config) × FetcherState
  | .openErr, s => (.error .failedOpen, s)
  | .buildErr, s => (.error .failedLoad, s)
  | .closeErr _, s => (.error .failedClose, s)
  | .ok c, s =>
    if s.previousConfiguration = c then (.ok none, s)
    else (.ok (some c), { previousConfiguration := c })

/-! ### encoding/json on map[string]string

The compact spec format embeds labels as a JSON object string. The model
covers JSON objects of string literals with the escape syntax of
encoding/json (the simple escapes, \uXXXX with UTF-16 surrogate pairs,
unpaired surrogates decoding to U+FFFD) plus the JSON null literal, which
Go unmarshals into a nil map; the model works at the rune level, so the
byte-level coercion of invalid UTF-8 has no counterpart. Go maps are
unordered with extensional equality, so the model keeps them canonical: an
association list sorted strictly by key (Go json.Marshal emits keys in
sorted order, and duplicate keys in the input are resolved last-wins as in
Go). -/

/-- JSON whitespace accepted between tokens. -/
def isJsonWs (c : Char) : Bool := c = ' ' || c = '\t' || c = '\n' || c = '\r'

/-- Drop leading JSON whitespace. -/
def skipWs : Str → Str
  | [] => []
  | c :: cs => if isJsonWs c then skipWs cs else c :: cs

/-- Decode a simple backslash escape character (json unquote). -/
def escChar (c : Char) : Option Char :=
  if c = '"' then some '"'
  else if c = '\\' then some '\\'
  else if c = '/' then some '/'
  else if c = 'b' then some (Char.ofNat 8)
  else if c = 'f' then some (Char.ofNat 12)
  else if c = 'n' then some '\n'
  else if c = 'r' then some '\r'
  else if c = 't' then some '\t'
  else none

/-- Read exactly four hexadecimal digits, case-insensitive (json getu4). -/
def getu4 : Str → Option (Nat × Str)
  | a :: b :: c :: d :: rest =>
    if isHexDigitC a && isHexDigitC b && isHexDigitC c && isHexDigitC d then
      some (hexVal [a, b, c, d], rest)
    else none
  | _ => none

/-- UTF-16 surrogate code unit test. -/
def isSurr (n : Nat) : Bool := 55296 ≤ n && n < 57344

/-- High (leading) surrogate test. -/
def isHighSurr (n : Nat) : Bool := 55296 ≤ n && n < 56320

/-- Low (trailing) surrogate test. -/
def isLowSurr (n : Nat) : Bool := 56320 ≤ n && n < 57344

/-- Decode the digits of one \uXXXX escape (the backslash and the u are
already consumed), following json unquote: a surrogate tries to combine
with an immediately following \uXXXX escape, and an unpaired or invalid
surrogate becomes U+FFFD with only the first escape consumed. -/
def decodeU (s : Str) : Option (Char × Str) :=
  match getu4 s with
  | none => none
  | some (n, rest) =>
    if isSurr n then
      match rest with
      | '\\' :: 'u' :: rest2 =>
        match getu4 rest2 with
        | some (n2, rest3) =>
          if isHighSurr n && isLowSurr n2 then
            some (Char.ofNat (65536 + (n - 55296) * 1024 + (n2 - 56320)), rest3)
          else some ('\uFFFD', rest)
        | none => some ('\uFFFD', rest)
      | _ => some ('\uFFFD', rest)
    else some (Char.ofNat n, rest)

/-- Consume the body of a JSON string literal up to the closing quote,
decoding escapes. Each step consumes at least one input character, so a
fuel exceeding the input length suffices. Raw control characters and
unknown escapes are errors, as in the json scanner. -/
def takeJStr : Nat → Str → Option (Str × Str)
  | 0, _ => none
  | fuel + 1, s =>
    match s with
    | [] => none
    | c :: r =>
      if c = '"' then some ([], r)
      else if c = '\\' then
        match r with
        | [] => none
        | e :: r2 =>
          if e = 'u' then
            match decodeU r2 with
            | none => none
            | some (ch, r3) => (takeJStr fuel r3).map (fun p => (ch :: p.1, p.2))
          else
            match escChar e with
            | none => none
            | some ch => (takeJStr fuel r2).map (fun p => (ch :: p.1, p.2))
      else if c.toNat < 32 then none
      else (takeJStr fuel r).map (fun p => (c :: p.1, p.2))

/-- Parse a JSON string literal, returning the decoded content and the
remainder. -/
def parseJString : Str → Option (Str × Str)
  | [] => none
  | c :: rest => if c = '"' then takeJStr (rest.length + 1) rest else none

/-- Parse the members of a JSON object after the opening brace, consuming
the closing brace; fuel bounds the number of members. -/
def parseMembers : Nat → Str → Option (List (Str × Str) × Str)
  | 0, _ => none
  | fuel + 1, s =>
    match parseJString (skipWs s) with
    | none => none
    | some (k, r1) =>
      match skipWs r1 with
      | [] => none
      | c :: r2 =>
        if c = ':' then
          match parseJString (skipWs r2) with
          | none => none
          | some (v, r3) =>
            match skipWs r3 with
            | [] => none
            | c2 :: r4 =>
              if c2 = ',' then (parseMembers fuel r4).map (fun p => ((k, v) :: p.1, p.2))
              else if c2 = '}' then some ([(k, v)], r4)
              else none
        else none

/-- Parse one JSON object, returning the members in source order and the
remainder of the input. -/
def parseJsonObj (s : Str) : Option (List (Str × Str) × Str) :=
  match skipWs s with
  | [] => none
  | c :: r =>
    if c = '{' then
      match skipWs r with
      | c2 :: r2 =>
        if c2 = '}' then some ([], r2) else parseMembers (r.length + 1) r
      | [] => parseMembers (r.length + 1) r
    else none

/-- Lexicographic byte order on the modelled strings (Go string order; on
this subset character order and UTF-8 byte order agree). -/
def strLt : Str → Str → Bool
  | [], [] => false
  | [], _ :: _ => true
  | _ :: _, [] => false
  | a :: as, b :: bs =>
    if a.toNat < b.toNat then true
    else if b.toNat < a.toNat then false
    else strLt as bs

/-- Insert one key-value pair into a canonically sorted association list,
overwriting an existing binding of the same key (Go maps: last write
wins). -/
def canonInsert : List (Str × Str) → Str × Str → List (Str × Str)
  | [], kv => [kv]
  | (k, v) :: rest, kv =>
    if strLt kv.1 k then kv :: (k, v) :: rest
    else if kv.1 = k then (kv.1, kv.2) :: rest
    else (k, v) :: canonInsert rest kv

/-- Canonical (sorted, last-wins) form of a member list, the model of the
Go map the decoder builds. -/
def canonicalize (l : List (Str × Str)) : List (Str × Str) := l.foldl canonInsert []

/-- Recognize the null literal, returning what follows it. -/
def nullRest : Str → Option Str
  | 'n' :: 'u' :: 'l' :: 'l' :: r => some r
  | _ => none

/-- Go json.Unmarshal into a map[string]string variable: `some none` means
the JSON null (the variable stays the nil map), `some (some m)` a decoded
object, `none` a decode error. Trailing non-whitespace is an error. -/
def goJsonUnmarshalMap (s : Str) : Option (Option (List (Str × Str))) :=
  match nullRest (skipWs s) with
  | some r => if skipWs r = [] then some none else none
  | none =>
    match parseJsonObj s with
    | some (l, rest) => if skipWs rest = [] then some (some (canonicalize l)) else none
    | none => none

/-- Lowercase hexadecimal digit character. -/
def hexDigitChar (n : Nat) : Char :=
  if n < 10 then Char.ofNat ('0'.toNat + n) else Char.ofNat ('a'.toNat + n - 10)

/-- Go encoding/json escaping of one character of a string: quote and
backslash, the shorthands for newline, carriage return and tab, \u00xx for
the other control characters and for the HTML-unsafe <, > and &, \u202x
for the line separators U+2028 and U+2029, and every other character
verbatim. -/
def encChar (c : Char) : Str :=
  if c = '"' then ['\\', '"']
  else if c = '\\' then ['\\', '\\']
  else if c = '\n' then ['\\', 'n']
  else if c = '\r' then ['\\', 'r']
  else if c = '\t' then ['\\', 't']
  else if c.toNat < 32 ∨ c = '<' ∨ c = '>' ∨ c = '&' then
    ['\\', 'u', '0', '0', hexDigitChar (c.toNat / 16), hexDigitChar (c.toNat % 16)]
  else if c = '\u2028' ∨ c = '\u2029' then
    ['\\', 'u', '2', '0', '2', hexDigitChar (c.toNat % 16)]
  else [c]

/-- Go-escaped body of a JSON string literal. -/
def encodeStr (s : Str) : Str := s.foldr (fun c acc => encChar c ++ acc) []

/-- Quote a string for the JSON output with Go escaping. -/
def quoteJ (s : Str) : Str := '"' :: encodeStr s ++ ['"']

/-- Print object members compactly, comma separated. -/
def printMembers : List (Str × Str) → Str
  | [] => []
  | [(k, v)] => quoteJ k ++ ':' :: quoteJ v
  | (k, v) :: more => quoteJ k ++ ':' :: quoteJ v ++ ',' :: printMembers more

/-- Go json.Marshal of a map[string]string: compact object with keys in
sorted order (the canonical list is already sorted). -/
def goJsonMarshalMap (m : List (Str × Str)) : Str := '{' :: printMembers m ++ ['}']

/-! ### NodeGroupSpec parsing and serialization (node_group_spec.go) -/

/-- NodeGroupSpec.Validate from node_group_spec.go, checks in source
order. -/
inductive SpecValidateErr where
  | minSizeNegative
  | minSizeNonPositive
  | maxLtMin
  | blankName
deriving DecidableEq, Repr

/-- Validate method on NodeGroupSpec: min-size bound (depending on
scale-to-zero support), then max against min, then the name. -/
def NodeGroupSpec.Validate (s : NodeGroupSpec) : Option SpecValidateErr :=
  if s.supportScaleToZero then
    if s.minSize < 0 then some .minSizeNegative
    else if s.maxSize < s.minSize then some .maxLtMin
    else if s.name = [] then some .blankName
    else none
  else
    if s.minSize ≤ 0 then some .minSizeNonPositive
    else if s.maxSize < s.minSize then some .maxLtMin
    else if s.name = [] then some .blankName
    else none

/-- SpecFromString: the 3-token legacy form minSize:maxSize:name. Returns
none on any of the error paths of the Go function. -/
def SpecFromString (value : Str) (supportScaleToZero : Bool) : Option NodeGroupSpec :=
  match goSplitN value ':' 3 with
  | [t0, t1, t2] =>
    match goAtoi t0 with
    | (minV, true) =>
      match goAtoi t1 with
      | (maxV, true) =>
        let spec : NodeGroupSpec :=
          { name := t2, minSize := minV, maxSize := maxV,
            supportScaleToZero := supportScaleToZero }
        match spec.Validate with
        | none => some spec
        | some _ => none
      | (_, false) => none
    | (_, false) => none
  | _ => none

/-- SpecFromPolicyString: the 4-token extended form
minSize:maxSize:policy:name, the policy restricted to Delete or
Deallocate. -/
def SpecFromPolicyString (value : Str) (supportScaleToZero : Bool) : Option NodeGroupSpec :=
  match goSplitN value ':' 4 with
  | [t0, t1, t2, t3] =>
    match goAtoi t0 with
    | (minV, true) =>
      match goAtoi t1 with
      | (maxV, true) =>
        if t2 = policyDelete ∨ t2 = policyDeallocate then
          let spec : NodeGroupSpec :=
            { name := t3, minSize := minV, maxSize := maxV,
              scaleDownPolicy := t2, supportScaleToZero := supportScaleToZero }
          match spec.Validate with
          | none => some spec
          | some _ => none
        else none
      | (_, false) => none
    | (_, false) => none
  | _ => none

/-- SpecFromStringWithLabelsAndTaints from node_group_spec.go: split into
at most five colon tokens; exactly three tokens fall back to the legacy
parser, fewer than four fail, otherwise the first four tokens go through
SpecFromPolicyString and an optional fifth token carries
labelsJSON|taints. -/
def SpecFromStringWithLabelsAndTaints (value : Str) (supportScaleToZero : Bool) :
    Option NodeGroupSpec :=
  let tokens := goSplitN value ':' 5
  if tokens.length = 3 then SpecFromString value supportScaleToZero
  else if tokens.length < 4 then none
  else
    match SpecFromPolicyString (goJoin (tokens.take 4) ':') supportScaleToZero with
    | none => none
    | some spec =>
      if 4 < tokens.length then
        let labelsTaints := goSplit (tokens.getD 4 []) '|'
        match goJsonUnmarshalMap (labelsTaints.getD 0 []) with
        | none => none
        | some labels =>
          let spec := { spec with labels := labels }
          if 1 < labelsTaints.length then
            some { spec with taints := labelsTaints.getD 1 [] }
          else some spec
      else some spec

/-- Decimal digit emission, most significant first; the fuel bounds the
digit count. -/
def natToStrAux : Nat → Nat → Str
  | 0, _ => []
  | fuel + 1, n =>
    if n < 10 then [Nat.digitChar n]
    else natToStrAux fuel (n / 10) ++ [Nat.digitChar (n % 10)]

/-- Decimal rendering of a natural number (fmt %d). -/
def natToStr (n : Nat) : Str := natToStrAux (n + 1) n

/-- Decimal rendering of an integer (fmt %d). -/
def intToStr (i : Int) : Str :=
  if i < 0 then '-' :: natToStr i.natAbs else natToStr i.natAbs

/-- StringWithLabelsAndTaints from node_group_spec.go: always emits the
extended form minSize:maxSize:policy:name:labelsJSON|taints, with the
empty object standing in for a nil or empty label map. -/
def NodeGroupSpec.StringWithLabelsAndTaints (s : NodeGroupSpec) : Str :=
  intToStr s.minSize ++ ':' :: intToStr s.maxSize ++ ':' :: s.scaleDownPolicy ++
    ':' :: s.name ++ ':' :: goJsonMarshalMap (s.labels.getD []) ++ '|' :: s.taints

/-- Config.NodeGroupSpecStrings from config.go: serialize every node group
in input order. -/
def Config.NodeGroupSpecStrings (c : Config) : List Str :=
  (c.nodeGroups.getD []).map NodeGroupSpec.StringWithLabelsAndTaints

/-! ### Claims about the ConfigFetcher -/

/-- Sample changed config used by witnesses: a config whose node-group
slice is nil, as decoded from the empty document. -/
def nilGroupsConfig : Config := { nodeGroups := none, autoScalerProfile := {} }

/-- C1: when open, decode and validation succeed with config `c`, a
FetchConfigIfUpdated call returns nil exactly when `c` deep-equals the
baseline; otherwise it returns `c` and stores it as the new baseline, so
the changed config is returned exactly once and an immediate repeat with
the same content returns nil. -/
theorem fetchConfigIfUpdated_change_detection (s : FetcherState) (c : Config) :
    ((FetchConfigIfUpdated (.ok c) s).1 = .ok none ↔ s.previousConfiguration = c)
    ∧ (s.previousConfiguration ≠ c →
        (FetchConfigIfUpdated (.ok c) s).1 = .ok (some c)
        ∧ (FetchConfigIfUpdated (.ok c) s).2.previousConfiguration = c)
    ∧ (FetchConfigIfUpdated (.ok c) (FetchConfigIfUpdated (.ok c) s).2).1 = .ok none := by
  unfold FetchConfigIfUpdated
  by_cases h : s.previousConfiguration = c <;> simp [h]

/-- Witness for C1: a concrete changed config is returned once, then nil. -/
theorem fetchConfigIfUpdated_change_detection_witness :
    (FetchConfigIfUpdated (.ok nilGroupsConfig) NewConfigFetcher).1 = .ok (some nilGroupsConfig)
    ∧ (FetchConfigIfUpdated (.ok nilGroupsConfig)
        (FetchConfigIfUpdated (.ok nilGroupsConfig) NewConfigFetcher).2).1 = .ok none := by
  have h := fetchConfigIfUpdated_change_detection NewConfigFetcher nilGroupsConfig
  exact ⟨(h.2.1 (by decide)).1, h.2.2⟩

/-- C7: when the open fails or the decode-and-validate step fails, the call
returns the corresponding error and the previously accepted baseline is
left untouched, so the next call compares against the same baseline. -/
theorem fetchConfigIfUpdated_error_preserves_baseline (s : FetcherState) :
    (FetchConfigIfUpdated .openErr s).1 = .error .failedOpen
    ∧ (FetchConfigIfUpdated .openErr s).2 = s
    ∧ (FetchConfigIfUpdated .buildErr s).1 = .error .failedLoad
    ∧ (FetchConfigIfUpdated .buildErr s).2 = s := by
  exact ⟨rfl, rfl, rfl, rfl⟩

/-- C9: the initial baseline is the default config with an empty but
non-nil node-group list; a config decoding with a nil node-group list is
deep-unequal to it, so the very first fetch reports it as changed even
though it describes no node groups. -/
theorem first_fetch_reports_nil_groups_config_changed :
    NewConfigFetcher.previousConfiguration = NewDefaultConfig
    ∧ NewDefaultConfig.nodeGroups = some []
    ∧ nilGroupsConfig.nodeGroups = none
    ∧ nilGroupsConfig ≠ NewDefaultConfig
    ∧ FetchConfigIfUpdated (.ok nilGroupsConfig) NewConfigFetcher
        = (.ok (some nilGroupsConfig), { previousConfiguration := nilGroupsConfig }) := by
  refine ⟨rfl, rfl, rfl, by decide, by rfl⟩

/-! ### strconv.ParseBool, strconv.ParseFloat, time.ParseDuration -/

/-- Go strconv.ParseBool: value and success flag; anything outside the
twelve accepted literals yields `(false, false)`. -/
def goParseBool (s : Str) : Bool × Bool :=
  if s = str "1" ∨ s = str "t" ∨ s = str "T" ∨ s = str "true" ∨
      s = str "TRUE" ∨ s = str "True" then (true, true)
  else if s = str "0" ∨ s = str "f" ∨ s = str "F" ∨ s = str "false" ∨
      s = str "FALSE" ∨ s = str "False" then (false, true)
  else (false, false)

/-- Value of a Go float64 variable, with exact rational arithmetic standing
in for the float64 value (rounding to nearest float64 is not modelled; no
claim here depends on rounding). -/
inductive GoFloat where
  | val (q : Rat)
  | inf (neg : Bool)
  | nan
deriving DecidableEq, Repr

/-- Go strconv underscore placement check: every underscore must sit
between digits (or follow the hex base prefix). -/
def underscoreOK (s : Str) : Bool := go '^' s
where
  /-- Scan remembering the previous character. -/
  go : Char → Str → Bool
    | prev, '_' :: rest =>
      match rest with
      | next :: _ =>
        (isHexDigitC prev || prev = 'x' || prev = 'X') && isHexDigitC next && go '_' rest
      | [] => false
    | _, c :: rest => go c rest
    | _, [] => true

/-- Strip an optional leading sign, reporting whether it was a minus. -/
def signSplit : Str → Bool × Str
  | '-' :: r => (true, r)
  | '+' :: r => (false, r)
  | r => (false, r)

/-- Parse the decimal exponent part after the e or p marker. -/
def decExpVal (s : Str) : Option Int :=
  let (eneg, s1) := signSplit s
  if s1 ≠ [] ∧ allDigits s1 then
    some (if eneg then -(digitsVal s1 : Int) else (digitsVal s1 : Int))
  else none

/-- Parse a decimal mantissa `digits[.digits]` (at least one digit on one
side of the dot), returning its rational value and the remainder. -/
def decMantissa (s : Str) : Option (Rat × Str) :=
  let d1 := s.takeWhile Char.isDigit
  let r1 := s.dropWhile Char.isDigit
  match r1 with
  | '.' :: r2 =>
    let d2 := r2.takeWhile Char.isDigit
    let r3 := r2.dropWhile Char.isDigit
    if d1 = [] ∧ d2 = [] then none
    else some ((digitsVal d1 : Rat) + (digitsVal d2 : Rat) / (10 : Rat) ^ d2.length, r3)
  | _ => if d1 = [] then none else some ((digitsVal d1 : Rat), r1)

/-- Float64 overflow threshold of round-to-nearest-even: values whose
magnitude reaches 2^1024 - 2^970 (the midpoint between the largest finite
float64 and 2^1024) round to infinity. -/
def f64Overflow : Rat := (2 : Rat) ^ (1024 : Nat) - (2 : Rat) ^ (970 : Nat)

/-- Float64 underflow threshold: nonzero values whose magnitude is at most
2^-1075 (the midpoint between zero and the smallest subnormal) round to
zero. -/
def f64Underflow : Rat := 1 / (2 : Rat) ^ (1075 : Nat)

/-- Range step of strconv.ParseFloat on an exact value: overflow returns
the signed infinity with ErrRange, rounding of a nonzero value to zero
returns zero with ErrRange (the sign of that zero is not modelled), and an
in-range value is kept exactly (rounding of in-range values to the nearest
float64 is not modelled; no claim depends on it). -/
def floatRange (q : Rat) : GoFloat × Bool :=
  if f64Overflow ≤ q ∨ q ≤ -f64Overflow then (.inf (q < 0), false)
  else if q ≠ 0 ∧ -f64Underflow ≤ q ∧ q ≤ f64Underflow then (.val 0, false)
  else (.val q, true)

/-- Parse the body of a decimal float (sign already removed). -/
def parseDecFloat (neg : Bool) (s : Str) : GoFloat × Bool :=
  match decMantissa s with
  | none => (.val 0, false)
  | some (m, r) =>
    match r with
    | [] => floatRange (if neg then -m else m)
    | e :: r2 =>
      if e = 'e' ∨ e = 'E' then
        match decExpVal r2 with
        | some ex =>
          let q := m * (10 : Rat) ^ ex
          floatRange (if neg then -q else q)
        | none => (.val 0, false)
      else (.val 0, false)

/-- Split an optional `.hexdigits` fraction off the remainder of a hex
mantissa. -/
def hexFracSplit : Str → Str × Str
  | '.' :: rr => (rr.takeWhile isHexDigitC, rr.dropWhile isHexDigitC)
  | r1 => ([], r1)

/-- Parse the body of a hexadecimal float after the 0x prefix: hex mantissa
with optional dot and a mandatory binary exponent `p`. -/
def parseHexFloat (neg : Bool) (s : Str) : GoFloat × Bool :=
  let d1 := s.takeWhile isHexDigitC
  let r1 := s.dropWhile isHexDigitC
  let d2 := (hexFracSplit r1).1
  let r2 := (hexFracSplit r1).2
  if d1 = [] ∧ d2 = [] then (.val 0, false)
  else
    match r2 with
    | p :: r3 =>
      if p = 'p' ∨ p = 'P' then
        match decExpVal r3 with
        | some ex =>
          let m : Rat := (hexVal d1 : Rat) + (hexVal d2 : Rat) / (16 : Rat) ^ d2.length
          let q := m * (2 : Rat) ^ ex
          floatRange (if neg then -q else q)
        | none => (.val 0, false)
      else (.val 0, false)
    | [] => (.val 0, false)

/-- Body of ParseFloat after underscore stripping and sign splitting: the
case-insensitive special literals inf, infinity and nan, then the
hexadecimal or decimal grammar. -/
def parseFloatBody (neg : Bool) (s1 : Str) : GoFloat × Bool :=
  let low := s1.map Char.toLower
  if low = str "inf" ∨ low = str "infinity" then (.inf neg, true)
  else if low = str "nan" then (.nan, true)
  else
    match s1 with
    | '0' :: x :: rest =>
      if x = 'x' ∨ x = 'X' then parseHexFloat neg rest
      else parseDecFloat neg ('0' :: x :: rest)
    | _ => parseDecFloat neg s1

/-- Go strconv.ParseFloat(s, 64): syntax errors yield `(0, false)`; the
special literals inf, infinity and nan are recognized case-insensitively;
an overflowing value yields the signed infinity with the error flag set
and a nonzero value rounding to zero yields zero with the error flag set,
exactly as the Go function returns ErrRange together with that value. -/
def goParseFloat (s : Str) : GoFloat × Bool :=
  if s = [] then (.val 0, false)
  else if underscoreOK s then
    let ns := signSplit (s.filter (fun c => c ≠ '_'))
    parseFloatBody ns.1 ns.2
  else (.val 0, false)

/-- Duration unit table of time.ParseDuration, in nanoseconds. -/
def durUnit (u : Str) : Option Int :=
  if u = str "ns" then some 1
  else if u = str "us" then some 1000
  else if u = str "µs" then some 1000
  else if u = str "μs" then some 1000
  else if u = str "ms" then some 1000000
  else if u = str "s" then some 1000000000
  else if u = str "m" then some 60000000000
  else if u = str "h" then some 3600000000000
  else none

/-- Sum the `number[.fraction]unit` chunks of a duration literal. The
fractional contribution is the exact floor of fraction times unit (Go
computes it in float64; no claim depends on the sub-nanosecond rounding,
and int64 overflow is not modelled). -/
def parseDurChunks : Nat → Str → Option Int
  | 0, _ => none
  | _, [] => some 0
  | fuel + 1, s =>
    let d1 := s.takeWhile Char.isDigit
    let r1 := s.dropWhile Char.isDigit
    let (d2, r2) : Str × Str :=
      match r1 with
      | '.' :: rr => (rr.takeWhile Char.isDigit, rr.dropWhile Char.isDigit)
      | _ => ([], r1)
    if d1 = [] ∧ d2 = [] then none
    else
      let u := r2.takeWhile (fun c => !c.isDigit && c ≠ '.')
      let r3 := r2.dropWhile (fun c => !c.isDigit && c ≠ '.')
      match durUnit u with
      | none => none
      | some unit =>
        let chunk : Int :=
          (digitsVal d1 : Int) * unit + (digitsVal d2 : Int) * unit / (10 : Int) ^ d2.length
        (parseDurChunks fuel r3).map (chunk + ·)

/-- Go time.ParseDuration: nanosecond value and success flag; every error
path of the Go function yields `(0, false)`, including its overflow
checks: with nonnegative chunks and the model's exact fractional
arithmetic, Go's per-chunk guard and wraparound tests fire exactly when
the total exceeds the int64 maximum. -/
def goParseDuration (s : Str) : Int × Bool :=
  let ns := signSplit s
  if ns.2 = str "0" then (0, true)
  else if ns.2 = [] then (0, false)
  else
    match parseDurChunks (ns.2.length + 1) ns.2 with
    | some v =>
      if int64Max < v then (0, false)
      else (if ns.1 then -v else v, true)
    | none => (0, false)

/-! ### config.AutoscalingOptions and the profile merge (autoscaler_builder.go) -/

/-- units.GiB from the autoscaler utils/units package. -/
def unitsGiB : Int := 1024 * 1024 * 1024

/-- Subset of config.NodeGroupAutoscalingOptions touched by the merge.
Durations are nanosecond counts. -/
structure NodeGroupAutoscalingOptions where
  scaleDownUnneededTime : Int := 0
  scaleDownUnreadyTime : Int := 0
  scaleDownUtilizationThreshold : GoFloat := .val 0
deriving DecidableEq, Repr

/-- Subset of the external config.AutoscalingOptions struct: the fields the
builder and the profile merge read or write. Durations are nanosecond
counts, int and int64 fields are `Int`. -/
structure AutoscalingOptions where
  nodeGroups : List Str := []
  expanderNames : Str := []
  scaleDownDelayAfterAdd : Int := 0
  scaleDownDelayAfterDelete : Int := 0
  scaleDownDelayAfterFailure : Int := 0
  nodeGroupDefaults : NodeGroupAutoscalingOptions := {}
  maxCloudProviderNodeDeletionTime : Int := 0
  maxNodeProvisionTime : Int := 0
  enableGetVmss : Bool := false
  getVmssSizeRefreshPeriod : Int := 0
  enableForceDelete : Bool := false
  enableDynamicInstanceList : Bool := false
  minCoresTotal : Int := 0
  maxCoresTotal : Int := 0
  minMemoryTotal : Int := 0
  maxMemoryTotal : Int := 0
  maxGracefulTerminationSec : Int := 0
  balanceSimilarNodeGroups : Bool := false
  newPodScaleUpDelay : Int := 0
  maxEmptyBulkDelete : Int := 0
  okTotalUnreadyCount : Int := 0
  maxTotalUnreadyPercentage : GoFloat := .val 0
  daemonSetEvictionForEmptyNodes : Bool := false
  daemonSetEvictionForOccupiedNodes : Bool := false
deriving DecidableEq, Repr

/-- Result of updateAutoScalerProfile: the merged options plus the
process-wide flag.Set calls the function issues (name, value), in call
order. -/
structure MergeResult where
  options : AutoscalingOptions
  flagSets : List (Str × Str)
deriving DecidableEq, Repr

/-- updateAutoScalerProfile from autoscaler_builder.go. The Go function is
a sequence of independent guarded single-field assignments (each block
reads one profile string and writes one distinct option field); the model
gives the equivalent field-by-field form, each field carrying its source
block: when the profile string is non-empty the field receives the value
component of the corresponding parse with the error discarded (the Go
`v, _ := parse(s)` idiom), and otherwise keeps its previous value. The
three trailing flag.Set calls are collected in flagSets. -/
def updateAutoScalerProfile (p : AutoScalerProfile) (o : AutoscalingOptions) : MergeResult :=
  { options :=
    { o with
      scaleDownDelayAfterAdd :=
        if p.scaleDownDelayAfterAdd ≠ [] then (goParseDuration p.scaleDownDelayAfterAdd).1
        else o.scaleDownDelayAfterAdd
      scaleDownDelayAfterDelete :=
        if p.scaleDownDelayAfterDelete ≠ [] then (goParseDuration p.scaleDownDelayAfterDelete).1
        else o.scaleDownDelayAfterDelete
      scaleDownDelayAfterFailure :=
        if p.scaleDownDelayAfterFailure ≠ [] then (goParseDuration p.scaleDownDelayAfterFailure).1
        else o.scaleDownDelayAfterFailure
      nodeGroupDefaults :=
      { o.nodeGroupDefaults with
        scaleDownUnneededTime :=
          if p.scaleDownUnneededTime ≠ [] then (goParseDuration p.scaleDownUnneededTime).1
          else o.nodeGroupDefaults.scaleDownUnneededTime
        scaleDownUnreadyTime :=
          if p.scaleDownUnreadyTime ≠ [] then (goParseDuration p.scaleDownUnreadyTime).1
          else o.nodeGroupDefaults.scaleDownUnreadyTime
        scaleDownUtilizationThreshold :=
          if p.scaleDownUtilizationThreshold ≠ [] then
            (goParseFloat p.scaleDownUtilizationThreshold).1
          else o.nodeGroupDefaults.scaleDownUtilizationThreshold }
      maxCloudProviderNodeDeletionTime :=
        if p.maxCloudProviderNodeDeletionTime ≠ [] then
          (goParseDuration p.maxCloudProviderNodeDeletionTime).1
        else o.maxCloudProviderNodeDeletionTime
      maxNodeProvisionTime :=
        if p.maxNodeProvisionTime ≠ [] then (goParseDuration p.maxNodeProvisionTime).1
        else o.maxNodeProvisionTime
      enableGetVmss :=
        if p.enableGetVmss ≠ [] then (goParseBool p.enableGetVmss).1
        else o.enableGetVmss
      getVmssSizeRefreshPeriod :=
        if p.getVmssSizeRefreshPeriod ≠ [] then (goParseDuration p.getVmssSizeRefreshPeriod).1
        else o.getVmssSizeRefreshPeriod
      enableForceDelete :=
        if p.enableForceDelete ≠ [] then (goParseBool p.enableForceDelete).1
        else o.enableForceDelete
      enableDynamicInstanceList :=
        if p.enableDynamicInstanceList ≠ [] then (goParseBool p.enableDynamicInstanceList).1
        else o.enableDynamicInstanceList
      minCoresTotal :=
        if p.minCpu ≠ [] then (goParseInt64 p.minCpu).1
        else o.minCoresTotal
      maxCoresTotal :=
        if p.maxCpu ≠ [] then (goParseInt64 p.maxCpu).1
        else o.maxCoresTotal
      minMemoryTotal :=
        if p.minMemory ≠ [] then (goParseInt64 p.minMemory).1 * unitsGiB
        else o.minMemoryTotal
      maxMemoryTotal :=
        if p.maxMemory ≠ [] then (goParseInt64 p.maxMemory).1 * unitsGiB
        else o.maxMemoryTotal
      maxGracefulTerminationSec :=
        if p.maxGracefulTerminationSec ≠ [] then (goAtoi p.maxGracefulTerminationSec).1
        else o.maxGracefulTerminationSec
      balanceSimilarNodeGroups :=
        if p.balanceSimilarNodeGroups ≠ [] then (goParseBool p.balanceSimilarNodeGroups).1
        else o.balanceSimilarNodeGroups
      expanderNames :=
        if p.expander ≠ [] then p.expander else o.expanderNames
      newPodScaleUpDelay :=
        if p.newPodScaleUpDelay ≠ [] then (goParseDuration p.newPodScaleUpDelay).1
        else o.newPodScaleUpDelay
      maxEmptyBulkDelete :=
        if p.maxEmptyBulkDelete ≠ [] then (goAtoi p.maxEmptyBulkDelete).1
        else o.maxEmptyBulkDelete
      okTotalUnreadyCount :=
        if p.okTotalUnreadyCount ≠ [] then (goAtoi p.okTotalUnreadyCount).1
        else o.okTotalUnreadyCount
      maxTotalUnreadyPercentage :=
        if p.maxTotalUnreadyPercentage ≠ [] then (goParseFloat p.maxTotalUnreadyPercentage).1
        else o.maxTotalUnreadyPercentage
      daemonSetEvictionForEmptyNodes :=
        if p.daemonSetEvictionForEmptyNodes ≠ [] then
          (goParseBool p.daemonSetEvictionForEmptyNodes).1
        else o.daemonSetEvictionForEmptyNodes
      daemonSetEvictionForOccupiedNodes :=
        if p.daemonSetEvictionForOccupiedNodes ≠ [] then
          (goParseBool p.daemonSetEvictionForOccupiedNodes).1
        else o.daemonSetEvictionForOccupiedNodes }
    flagSets :=
      (if p.skipNodesWithLocalStorage ≠ [] then
        [(str "skip-nodes-with-local-storage", p.skipNodesWithLocalStorage)] else []) ++
      (if p.skipNodesWithSystemPods ≠ [] then
        [(str "skip-nodes-with-system-pods", p.skipNodesWithSystemPods)] else []) ++
      (if p.scanInterval ≠ [] then [(str "scan-interval", p.scanInterval)] else []) }

/-! ### AutoscalerBuilderImpl.Build (autoscaler_builder.go) -/

/-- Identity of a cloud-provider handle built by the external factory. -/
abbrev CloudProviderId := Nat

/-- Identity of an expander strategy built by the external factory. -/
abbrev StrategyId := Nat

/-- External collaborator behavior during one Build call: the
cloud-provider builder (total, keyed by the options it receives) and the
expander factory (fallible, keyed by the expander name list). -/
structure BuildEnv where
  newCloudProvider : AutoscalingOptions → CloudProviderId
  expanderBuild : List Str → Except Unit StrategyId

/-- Value observation of the NewStaticAutoscaler call: the options and the
collaborators the new autoscaler is wired to. -/
structure StaticAutoscaler where
  options : AutoscalingOptions
  cloudProvider : CloudProviderId
  expanderStrategy : StrategyId
deriving DecidableEq, Repr

/-- Stored fields of AutoscalerBuilderImpl relevant to the model. -/
structure AutoscalerBuilderImpl where
  autoscalingOptions : AutoscalingOptions
  dynamicConfig : Option Config := none
  cloudProvider : CloudProviderId
  expanderStrategy : StrategyId
deriving DecidableEq, Repr

/-- SetDynamicConfig: store the config, rebuild nothing. -/
def SetDynamicConfig (b : AutoscalerBuilderImpl) (c : Config) : AutoscalerBuilderImpl :=
  { b with dynamicConfig := some c }

/-- Build from autoscaler_builder.go: with a dynamic config present, the
node-group option is overlaid, the stored CloudProvider is rebuilt (before
and again after the profile merge), and the expander factory result
replaces the stored ExpanderStrategy only when the factory succeeds - a
factory error is silently dropped. The function always returns a new
autoscaler with a nil error. -/
def Build (env : BuildEnv) (b : AutoscalerBuilderImpl) :
    Except Unit StaticAutoscaler × AutoscalerBuilderImpl :=
  match b.dynamicConfig with
  | none =>
    (.ok { options := b.autoscalingOptions, cloudProvider := b.cloudProvider,
           expanderStrategy := b.expanderStrategy }, b)
  | some c =>
    let options := { b.autoscalingOptions with nodeGroups := c.NodeGroupSpecStrings }
    let b1 := { b with cloudProvider := env.newCloudProvider options }
    let options := (updateAutoScalerProfile c.autoScalerProfile options).options
    let b2 := { b1 with cloudProvider := env.newCloudProvider options }
    let b3 :=
      match env.expanderBuild (goSplit options.expanderNames ',') with
      | .ok es => { b2 with expanderStrategy := es }
      | .error _ => b2
    (.ok { options := options, cloudProvider := b3.cloudProvider,
           expanderStrategy := b3.expanderStrategy }, b3)

/-! ### Claims about the profile merge and Build -/

/-- Syntactically failed integer parses carry the zero value. -/
theorem goParseInt64_syntax_fail_zero (s : Str) (h : isGoInt s = false) :
    (goParseInt64 s).1 = 0 := by
  unfold goParseInt64
  simp [h]

/-- C10: in the profile merge, MinMemory and MaxMemory are GiB counts (the
parsed int64 is multiplied by units.GiB before being stored into
MinMemoryTotal and MaxMemoryTotal), while MinCpu and MaxCpu are stored into
MinCoresTotal and MaxCoresTotal as raw parsed counts. -/
theorem profile_merge_memory_gib_cpu_raw (o : AutoscalingOptions) (p : AutoScalerProfile) :
    (p.minMemory ≠ [] →
      (updateAutoScalerProfile p o).options.minMemoryTotal
        = (goParseInt64 p.minMemory).1 * unitsGiB)
    ∧ (p.maxMemory ≠ [] →
      (updateAutoScalerProfile p o).options.maxMemoryTotal
        = (goParseInt64 p.maxMemory).1 * unitsGiB)
    ∧ (p.minCpu ≠ [] →
      (updateAutoScalerProfile p o).options.minCoresTotal = (goParseInt64 p.minCpu).1)
    ∧ (p.maxCpu ≠ [] →
      (updateAutoScalerProfile p o).options.maxCoresTotal = (goParseInt64 p.maxCpu).1)
    ∧ unitsGiB = 1024 * 1024 * 1024 := by
  unfold updateAutoScalerProfile
  dsimp only
  refine ⟨?_, ?_, ?_, ?_, rfl⟩ <;> intro h1 <;> rw [if_pos h1]

/-- Profile of the C10 witness, with the values of the repository's own
TestUpdateAutoScalerProfile. -/
def c10Profile : AutoScalerProfile :=
  { minCpu := str "2", maxCpu := str "4", minMemory := str "8", maxMemory := str "16" }

/-- Witness for C10: memory counts are converted to bytes via GiB, cpu
counts are stored raw. -/
theorem profile_merge_memory_gib_cpu_raw_witness :
    (updateAutoScalerProfile c10Profile {}).options.minMemoryTotal = 8589934592
    ∧ (updateAutoScalerProfile c10Profile {}).options.maxMemoryTotal = 17179869184
    ∧ (updateAutoScalerProfile c10Profile {}).options.minCoresTotal = 2
    ∧ (updateAutoScalerProfile c10Profile {}).options.maxCoresTotal = 4 := by
  have h := profile_merge_memory_gib_cpu_raw {} c10Profile
  refine ⟨?_, ?_, ?_, ?_⟩
  · rw [h.1 (by decide)]; decide
  · rw [h.2.1 (by decide)]; decide
  · rw [h.2.2.1 (by decide)]; decide
  · rw [h.2.2.2.1 (by decide)]; decide

/-- Build environment of the C4 counterexample: the expander factory
fails, the cloud-provider factory returns a fresh handle. -/
def c4Env : BuildEnv :=
  { newCloudProvider := fun _ => 1, expanderBuild := fun _ => .error () }

/-- Builder state of the C4 counterexample. -/
def c4Builder : AutoscalerBuilderImpl :=
  { autoscalingOptions := {}, dynamicConfig := some NewDefaultConfig,
    cloudProvider := 0, expanderStrategy := 5 }

/-- C4 counterexample: with a failing expander factory, Build does not
surface any error (it returns a new autoscaler with nil error) and the
stored CloudProvider field has been replaced, so the build is neither
abandoned nor free of partial commits. -/
theorem build_collaborator_failure_counterexample :
    (Build c4Env c4Builder).1
      = .ok { options := { nodeGroups := [] }, cloudProvider := 1, expanderStrategy := 5 }
    ∧ (Build c4Env c4Builder).2.cloudProvider = 1
    ∧ c4Builder.cloudProvider = 0 := by
  refine ⟨rfl, rfl, rfl⟩

/-- Options value Build computes from a dynamic config before wiring the
collaborators: node groups overlaid, then the profile merge applied. -/
def buildOptions (b : AutoscalerBuilderImpl) (c : Config) : AutoscalingOptions :=
  (updateAutoScalerProfile c.autoScalerProfile
    { b.autoscalingOptions with nodeGroups := c.NodeGroupSpecStrings }).options

/-- C4 amended: when the expander factory fails during Build with a dynamic
config present, the error is silently dropped: Build still returns a new
autoscaler with nil error, the stored ExpanderStrategy keeps its previous
value, but the stored CloudProvider has already been replaced with the
freshly built handle; the static options and the stored config are
unchanged. -/
theorem build_expander_error_swallowed (env : BuildEnv) (b : AutoscalerBuilderImpl)
    (c : Config) (hc : b.dynamicConfig = some c)
    (he : env.expanderBuild (goSplit (buildOptions b c).expanderNames ',') = .error ()) :
    (Build env b).1 = .ok
      { options := buildOptions b c,
        cloudProvider := env.newCloudProvider (buildOptions b c),
        expanderStrategy := b.expanderStrategy }
    ∧ (Build env b).2.expanderStrategy = b.expanderStrategy
    ∧ (Build env b).2.cloudProvider = env.newCloudProvider (buildOptions b c)
    ∧ (Build env b).2.autoscalingOptions = b.autoscalingOptions
    ∧ (Build env b).2.dynamicConfig = b.dynamicConfig := by
  unfold Build
  rw [hc]
  dsimp only
  unfold buildOptions at he
  rw [he]
  dsimp only
  exact ⟨rfl, rfl, rfl, rfl, rfl⟩

/-- Witness for the amended C4 at the concrete counterexample input. -/
theorem build_expander_error_swallowed_witness :
    (Build c4Env c4Builder).1 = .ok
      { options := buildOptions c4Builder NewDefaultConfig,
        cloudProvider := c4Env.newCloudProvider (buildOptions c4Builder NewDefaultConfig),
        expanderStrategy := c4Builder.expanderStrategy }
    ∧ (Build c4Env c4Builder).2.expanderStrategy = c4Builder.expanderStrategy := by
  have h := build_expander_error_swallowed c4Env c4Builder NewDefaultConfig rfl rfl
  exact ⟨h.1, h.2.1⟩

/-! ### DynamicAutoscaler (RunOnce / Reconfigure) -/

/-- Identity of an autoscaler instance held by the DynamicAutoscaler. -/
abbrev AutoscalerId := Nat

/-- Error reported by Reconfigure. -/
inductive ReconfigErr where
  | fetchFailed
  | buildFailed
deriving DecidableEq, Repr

/-- Observable collaborator behavior during one tick: the fetcher outcome,
the result of SetDynamicConfig(c).Build(), whether Start succeeds, and the
per-autoscaler result of RunOnce(currentTime). -/
structure TickEnv where
  fetch : Except FetchErr (Option Config)
  build : Config → Except Unit AutoscalerId
  startOk : AutoscalerId → Bool
  iterate : AutoscalerId → Option Unit

/-- Events emitted during a tick, in order. -/
inductive DynEvent where
  | exitCleanUp (a : AutoscalerId)
  | loggedReconfigureError
deriving DecidableEq, Repr

/-- State of the DynamicAutoscaler: the held autoscaler reference. -/
structure DynState where
  autoscaler : AutoscalerId
deriving DecidableEq, Repr

/-- Result of one Reconfigure call: its returned error, the state after
the call, the emitted events, and whether klog.Fatalf terminated the
process (Start failure). -/
structure ReconfigResult where
  err : Option ReconfigErr
  state : DynState
  events : List DynEvent
  fatal : Bool
deriving DecidableEq, Repr

/-- Reconfigure from the DynamicAutoscaler: fetch errors are returned with
no other effect; an unchanged config is a no-op; a new config first runs
ExitCleanUp on the current autoscaler, then builds - a build error is
returned with the old reference still held - and on build success the
reference is replaced and the new instance started (a Start failure is
klog.Fatalf, modelled as the fatal flag). -/
def Reconfigure (env : TickEnv) (s : DynState) : ReconfigResult :=
  match env.fetch with
  | .error _ => { err := some .fetchFailed, state := s, events := [], fatal := false }
  | .ok none => { err := none, state := s, events := [], fatal := false }
  | .ok (some c) =>
    match env.build c with
    | .error _ =>
      { err := some .buildFailed, state := s,
        events := [.exitCleanUp s.autoscaler], fatal := false }
    | .ok a =>
      { err := none, state := { autoscaler := a },
        events := [.exitCleanUp s.autoscaler], fatal := ¬ env.startOk a }

/-- Result of one RunOnce tick: the error the tick returns, the state
after it, the events, and the fatal flag. -/
structure TickResult where
  err : Option Unit
  state : DynState
  events : List DynEvent
  fatal : Bool
deriving DecidableEq, Repr

/-- RunOnce from the DynamicAutoscaler: always runs Reconfigure first; a
Reconfigure error is only logged (klog.Errorf), after which the iteration
is delegated to whichever autoscaler is currently held, and its result is
the result of the tick. -/
def DynRunOnce (env : TickEnv) (s : DynState) : TickResult :=
  let r := Reconfigure env s
  if r.fatal then
    { err := none, state := r.state, events := r.events, fatal := true }
  else
    let events := r.events ++ (if r.err.isSome then [.loggedReconfigureError] else [])
    { err := env.iterate r.state.autoscaler, state := r.state, events := events,
      fatal := false }

/-- Tick environment of the C2 counterexample: a changed config is
fetched, the build fails, and the old autoscaler iterates without
error. -/
def c2Env : TickEnv :=
  { fetch := .ok (some nilGroupsConfig)
    build := fun _ => .error ()
    startOk := fun _ => true
    iterate := fun _ => none }

/-- C2 counterexample: with a failing build, Reconfigure returns the build
error, yet the tick (RunOnce) does not fail - the error is logged and the
old autoscaler's successful iteration result is returned. -/
theorem reconfigure_build_error_tick_not_failed_counterexample :
    (Reconfigure c2Env { autoscaler := 0 }).err = some .buildFailed
    ∧ (DynRunOnce c2Env { autoscaler := 0 }).err = none
    ∧ (DynRunOnce c2Env { autoscaler := 0 }).events
        = [.exitCleanUp 0, .loggedReconfigureError] := by
  refine ⟨rfl, rfl, rfl⟩

/-- C2 amended: when a new config is fetched and the build fails, the
error is returned by Reconfigure and the held autoscaler reference is not
replaced, although ExitCleanUp has already run on the old autoscaler; the
tick itself does not fail: RunOnce logs the error and returns the old
autoscaler's own iteration result. -/
theorem reconfigure_build_error_behavior (env : TickEnv) (s : DynState) (c : Config)
    (hf : env.fetch = .ok (some c)) (hb : env.build c = .error ()) :
    (Reconfigure env s).err = some .buildFailed
    ∧ (Reconfigure env s).state = s
    ∧ (Reconfigure env s).events = [.exitCleanUp s.autoscaler]
    ∧ (DynRunOnce env s).err = env.iterate s.autoscaler
    ∧ (DynRunOnce env s).state = s
    ∧ (DynRunOnce env s).events = [.exitCleanUp s.autoscaler, .loggedReconfigureError] := by
  have hr : Reconfigure env s
      = { err := some .buildFailed, state := s,
          events := [.exitCleanUp s.autoscaler], fatal := false } := by
    unfold Reconfigure
    rw [hf]
    dsimp only
    rw [hb]
  unfold DynRunOnce
  rw [hr]
  exact ⟨rfl, rfl, rfl, rfl, rfl, rfl⟩

/-- Witness for the amended C2 at the counterexample input. -/
theorem reconfigure_build_error_behavior_witness :
    (Reconfigure c2Env { autoscaler := 0 }).state = { autoscaler := 0 }
    ∧ (DynRunOnce c2Env { autoscaler := 0 }).err = c2Env.iterate 0 := by
  have h := reconfigure_build_error_behavior c2Env { autoscaler := 0 } nilGroupsConfig rfl rfl
  exact ⟨h.2.1, h.2.2.2.1⟩

/-! ### Claim about Config.validate -/

/-- Config of the C5 failing input: the invalid-scaleDownPolicy case of
the repository's own TestValidate. -/
def c5BadPolicyConfig : Config :=
  { nodeGroups := some
      [ { name := str "test1", minSize := 1, maxSize := 50,
          scaleDownPolicy := str "InvalidPolicy" },
        { name := str "test2", minSize := 10, maxSize := 70 } ],
    autoScalerProfile := {} }

/-- C5: Config.validate checks only the blank name and max-below-min
violations, in input order; it does not detect an invalid scaleDownPolicy,
so the configuration that TestValidate expects to fail with an invalid
scaledown policy error passes validation with no error, while validation
does flag the blank-name and max-below-min inputs of the same test. -/
theorem config_validate_misses_invalid_policy :
    Config.validate c5BadPolicyConfig = none
    ∧ (c5BadPolicyConfig.nodeGroups.getD []).map NodeGroupSpec.scaleDownPolicy
        = [str "InvalidPolicy", []]
    ∧ Config.validate
        { nodeGroups := some
            [ { name := [], minSize := 1, maxSize := 50 },
              { name := str "test2", minSize := 10, maxSize := 70 } ] }
        = some .blankName
    ∧ Config.validate
        { nodeGroups := some
            [ { name := str "test1", minSize := 100, maxSize := 50 },
              { name := str "test2", minSize := 10, maxSize := 70 } ] }
        = some (.maxLtMin (str "test1")) := by
  refine ⟨rfl, rfl, rfl, rfl⟩

/-! ### Azure scale-set instance cache (secondary component) -/

/-- Cached instance record: provider id and state. -/
structure Instance where
  providerId : Str
  state : Nat
deriving DecidableEq, Repr

/-- Cache state of one scale set: the instance list and the last refresh
timestamp (nanoseconds). -/
structure InstanceCacheState where
  instanceCache : List Instance
  lastInstanceRefresh : Int
deriving DecidableEq, Repr

/-- Outcome of the backing VMSS VM list call. -/
inductive ListOutcome where
  | throttled
  | otherError
  | ok (l : List Instance)
deriving DecidableEq, Repr

/-- Modelled from the spec: the implementation file
azure_scale_set_instance_cache.go is not part of this source snapshot
(only its test is), so validateInstanceCache is modelled from spec section
4.7 and TestValidateInstanceCache: a fresh cache (now minus lastRefresh
below the refresh period) is a no-op; a stale cache lists from the API -
on throttling the call returns no error, advances lastRefresh to now and
keeps the cache; on any other error it returns the error and changes
nothing; on success it replaces the cache wholesale and advances
lastRefresh. -/
def validateInstanceCache (now refreshPeriod : Int) (outcome : ListOutcome)
    (s : InstanceCacheState) : Option Unit × InstanceCacheState :=
  if now - s.lastInstanceRefresh < refreshPeriod then (none, s)
  else
    match outcome with
    | .throttled => (none, { instanceCache := s.instanceCache, lastInstanceRefresh := now })
    | .otherError => (some (), s)
    | .ok l => (none, { instanceCache := l, lastInstanceRefresh := now })

/-- C8: on a stale cache, a throttled list call makes validate return no
error, advance lastRefresh to now and leave the instance cache unchanged;
any other list error is propagated with both fields unchanged. -/
theorem validateInstanceCache_throttle_and_error (now refreshPeriod : Int)
    (s : InstanceCacheState) (hstale : refreshPeriod ≤ now - s.lastInstanceRefresh) :
    (validateInstanceCache now refreshPeriod .throttled s).1 = none
    ∧ (validateInstanceCache now refreshPeriod .throttled s).2.instanceCache = s.instanceCache
    ∧ (validateInstanceCache now refreshPeriod .throttled s).2.lastInstanceRefresh = now
    ∧ (validateInstanceCache now refreshPeriod .otherError s).1 = some ()
    ∧ (validateInstanceCache now refreshPeriod .otherError s).2 = s := by
  unfold validateInstanceCache
  rw [if_neg (by omega), if_neg (by omega)]
  exact ⟨rfl, rfl, rfl, rfl, rfl⟩

/-- Witness for C8 at a concrete stale cache. -/
theorem validateInstanceCache_throttle_and_error_witness :
    (validateInstanceCache 100 30 .throttled
        { instanceCache := [{ providerId := str "vm0", state := 3 }],
          lastInstanceRefresh := 50 }).2
      = { instanceCache := [{ providerId := str "vm0", state := 3 }],
          lastInstanceRefresh := 100 }
    ∧ (validateInstanceCache 100 30 .otherError
        { instanceCache := [{ providerId := str "vm0", state := 3 }],
          lastInstanceRefresh := 50 }).1 = some () := by
  have h := validateInstanceCache_throttle_and_error 100 30
    { instanceCache := [{ providerId := str "vm0", state := 3 }], lastInstanceRefresh := 50 }
    (by decide)
  refine ⟨?_, h.2.2.2.1⟩
  have h2 := h.2.1
  have h3 := h.2.2.1
  cases hs : (validateInstanceCache 100 30 .throttled
      { instanceCache := [{ providerId := str "vm0", state := 3 }],
        lastInstanceRefresh := 50 }).2
  rw [hs] at h2 h3
  simp only at h2 h3
  rw [h2, h3]

/-! ### Infrastructure for the round-trip claim: decimal rendering -/

/-- Digit characters are digits. -/
theorem digitChar_isDigit {n : Nat} (h : n < 10) : (Nat.digitChar n).isDigit = true := by
  interval_cases n <;> decide

/-- Reading a digit character back yields its value (48 is the code of
the zero digit). -/
theorem digitChar_val {n : Nat} (h : n < 10) : (Nat.digitChar n).toNat - 48 = n := by
  interval_cases n <;> decide

/-- Members of an all-digit string are digits. -/
theorem mem_allDigits {s : Str} {c : Char} (h : allDigits s = true) (hc : c ∈ s) :
    c.isDigit = true := by
  exact List.all_eq_true.mp h c hc

/-- natToStrAux with positive fuel is never empty. -/
theorem natToStrAux_ne_nil (fuel n : Nat) : natToStrAux (fuel + 1) n ≠ [] := by
  unfold natToStrAux
  split
  · simp
  · simp

/-- natToStrAux emits only digits. -/
theorem natToStrAux_allDigits : ∀ fuel n, allDigits (natToStrAux fuel n) = true
  | 0, _ => rfl
  | fuel + 1, n => by
    unfold natToStrAux
    split
    · rename_i h
      simp [allDigits, digitChar_isDigit h]
    · rename_i h
      have ih := natToStrAux_allDigits fuel (n / 10)
      unfold allDigits at ih ⊢
      rw [List.all_append]
      simp only [Bool.and_eq_true]
      refine ⟨ih, ?_⟩
      simp [digitChar_isDigit (Nat.mod_lt n (by omega))]

/-- Appending one character multiplies the accumulated value by ten. -/
theorem digitsVal_append_one (a : Str) (c : Char) :
    digitsVal (a ++ [c]) = digitsVal a * 10 + (c.toNat - '0'.toNat) := by
  unfold digitsVal
  rw [List.foldl_append]
  rfl

/-- Reading back natToStrAux recovers the number when the fuel covers it. -/
theorem natToStrAux_val : ∀ fuel n, n < 10 ^ fuel → digitsVal (natToStrAux fuel n) = n
  | 0, n, h => by
    simp at h
    simp [h, natToStrAux, digitsVal]
  | fuel + 1, n, h => by
    unfold natToStrAux
    split
    · rename_i hn
      simp [digitsVal]
      exact digitChar_val hn
    · rename_i hn
      have hdiv : n / 10 < 10 ^ fuel := by
        rw [Nat.div_lt_iff_lt_mul (by omega)]
        rw [pow_succ] at h
        omega
      rw [digitsVal_append_one, natToStrAux_val fuel (n / 10) hdiv]
      have hm := digitChar_val (Nat.mod_lt n (show 0 < 10 by omega))
      have h0 : '0'.toNat = 48 := rfl
      omega

/-- Reading back natToStr recovers the number. -/
theorem natToStr_val (n : Nat) : digitsVal (natToStr n) = n := by
  apply natToStrAux_val
  calc n < 10 ^ n := Nat.lt_pow_self (by omega) n
    _ ≤ 10 ^ (n + 1) := Nat.pow_le_pow_right (by omega) (by omega)

/-- natToStr emits only digits. -/
theorem natToStr_allDigits (n : Nat) : allDigits (natToStr n) = true :=
  natToStrAux_allDigits (n + 1) n

/-- natToStr is never empty. -/
theorem natToStr_ne_nil (n : Nat) : natToStr n ≠ [] := natToStrAux_ne_nil n n

/-- A non-digit character never occurs in natToStr. -/
theorem not_mem_natToStr {c : Char} (hc : c.isDigit = false) (n : Nat) : c ∉ natToStr n := by
  intro hmem
  rw [mem_allDigits (natToStr_allDigits n) hmem] at hc
  cases hc

/-- Digit strings satisfy the Go integer syntax. -/
theorem isGoInt_digits (s : Str) (hne : s ≠ []) (h : allDigits s = true) :
    isGoInt s = true := by
  cases s with
  | nil => exact absurd rfl hne
  | cons c cs =>
    have hc : c.isDigit = true := mem_allDigits h (List.mem_cons_self c cs)
    have hsign : ¬ (c = '+' ∨ c = '-') := by
      rintro (rfl | rfl) <;> cases hc
    simp only [isGoInt]
    rw [if_neg hsign]
    exact h

/-- Value of a digit string under goIntVal. -/
theorem goIntVal_digits (s : Str) (hne : s ≠ []) (h : allDigits s = true) :
    goIntVal s = (digitsVal s : Int) := by
  cases s with
  | nil => exact absurd rfl hne
  | cons c cs =>
    have hc : c.isDigit = true := mem_allDigits h (List.mem_cons_self c cs)
    have h1 : c ≠ '+' := by rintro rfl; cases hc
    have h2 : c ≠ '-' := by rintro rfl; cases hc
    simp only [goIntVal]
    rw [if_neg h1, if_neg h2]

/-- goAtoi inverts natToStr for values within the int64 range. -/
theorem goAtoi_natToStr (n : Nat) (h : (n : Int) ≤ int64Max) :
    goAtoi (natToStr n) = ((n : Int), true) := by
  unfold goAtoi goParseInt64
  rw [isGoInt_digits _ (natToStr_ne_nil n) (natToStr_allDigits n), if_pos rfl]
  rw [goIntVal_digits _ (natToStr_ne_nil n) (natToStr_allDigits n), natToStr_val n]
  rw [if_neg (by unfold int64Min; omega), if_neg (by omega)]

/-- goAtoi inverts intToStr for non-negative values within the int64
range. -/
theorem goAtoi_intToStr (i : Int) (h0 : 0 ≤ i) (h : i ≤ int64Max) :
    goAtoi (intToStr i) = (i, true) := by
  unfold intToStr
  rw [if_neg (by omega)]
  have := goAtoi_natToStr i.natAbs (by omega)
  rwa [Int.natAbs_of_nonneg h0] at this

/-- intToStr of a non-negative value contains only digits. -/
theorem not_mem_intToStr {c : Char} (hc : c.isDigit = false) (i : Int) (h0 : 0 ≤ i) :
    c ∉ intToStr i := by
  unfold intToStr
  rw [if_neg (by omega)]
  exact not_mem_natToStr hc i.natAbs

/-- goAtoi success bounds the value to the int64 range. -/
theorem goAtoi_ok_range (s : Str) (v : Int) (h : goAtoi s = (v, true)) :
    int64Min ≤ v ∧ v ≤ int64Max := by
  unfold goAtoi goParseInt64 at h
  split at h
  · dsimp only at h
    split at h
    · simp at h
    · split at h
      · simp at h
      · rename_i hmin hmax
        simp only [Prod.mk.injEq] at h
        obtain ⟨h, -⟩ := h
        subst h
        exact ⟨by omega, by omega⟩
  · simp at h

/-! ### Infrastructure for the round-trip claim: split and join -/

/-- Unfolding lemma for splitFirst on a cons cell. -/
theorem splitFirst_cons (c : Char) (cs : Str) (sep : Char) :
    splitFirst (c :: cs) sep
      = if c = sep then some ([], cs)
        else (splitFirst cs sep).map (fun p => (c :: p.1, p.2)) := rfl

/-- Unfolding lemma for goSplitN with at least two tokens of budget. -/
theorem goSplitN_succ_succ (s : Str) (sep : Char) (n : Nat) :
    goSplitN s sep (n + 2)
      = match splitFirst s sep with
        | none => [s]
        | some (a, b) => a :: goSplitN b sep (n + 1) := rfl

/-- One-token budget returns the whole string. -/
theorem goSplitN_one (s : Str) (sep : Char) : goSplitN s sep 1 = [s] := rfl

/-- splitFirst misses when the separator is absent. -/
theorem splitFirst_none {s : Str} {sep : Char} (h : sep ∉ s) : splitFirst s sep = none := by
  induction s with
  | nil => rfl
  | cons c cs ih =>
    rw [splitFirst_cons]
    rw [if_neg (by intro hc; exact h (hc ▸ List.mem_cons_self c cs))]
    rw [ih (fun hm => h (List.mem_cons_of_mem c hm))]
    rfl

/-- splitFirst cuts at the first separator occurrence. -/
theorem splitFirst_append (a b : Str) (sep : Char) (h : sep ∉ a) :
    splitFirst (a ++ sep :: b) sep = some (a, b) := by
  induction a with
  | nil =>
    rw [List.nil_append, splitFirst_cons, if_pos rfl]
  | cons c cs ih =>
    rw [List.cons_append, splitFirst_cons]
    rw [if_neg (by intro hc; exact h (hc ▸ List.mem_cons_self c cs))]
    rw [ih (fun hm => h (List.mem_cons_of_mem c hm))]
    rfl

/-- splitFirst hits when the separator is present. -/
theorem splitFirst_ne_none_of_mem {s : Str} {sep : Char} (h : sep ∈ s) :
    splitFirst s sep ≠ none := by
  induction s with
  | nil => cases h
  | cons c cs ih =>
    rw [splitFirst_cons]
    by_cases hc : c = sep
    · rw [if_pos hc]; simp
    · rw [if_neg hc]
      rcases List.mem_cons.mp h with rfl | hm
      · exact absurd rfl hc
      · cases hsf : splitFirst cs sep with
        | none => exact absurd hsf (ih hm)
        | some p => simp

/-- Unfolding lemma for goJoin of a list with at least two tokens. -/
theorem goJoin_cons_cons (t u : Str) (ts : List Str) (sep : Char) :
    goJoin (t :: u :: ts) sep = t ++ sep :: goJoin (u :: ts) sep := rfl

/-- splitFirst success decomposes the input. -/
theorem splitFirst_eq_some : ∀ (s : Str) (sep : Char) (a b : Str),
    splitFirst s sep = some (a, b) → s = a ++ sep :: b ∧ sep ∉ a
  | [], _, _, _, h => by cases h
  | c :: cs, sep, a, b, h => by
    rw [splitFirst_cons] at h
    by_cases hc : c = sep
    · rw [if_pos hc] at h
      simp only [Option.some.injEq, Prod.mk.injEq] at h
      obtain ⟨rfl, rfl⟩ := h
      simp [hc]
    · rw [if_neg hc] at h
      cases hsf : splitFirst cs sep with
      | none => rw [hsf] at h; cases h
      | some p =>
        rw [hsf] at h
        simp only [Option.map_some', Option.some.injEq] at h
        obtain ⟨ha, hb⟩ := splitFirst_eq_some cs sep p.1 p.2 (by rw [hsf])
        injection h with h1 h2
        subst h1
        subst h2
        constructor
        · simp only [List.cons_append, List.cons.injEq]
          exact ⟨trivial, ha⟩
        · intro hm
          rcases List.mem_cons.mp hm with rfl | hm2
          · exact hc rfl
          · exact hb hm2

/-- goSplitN peels one separator-free token. -/
theorem goSplitN_cons_tok (t rest : Str) (sep : Char) (n : Nat) (h : sep ∉ t) :
    goSplitN (t ++ sep :: rest) sep (n + 2) = t :: goSplitN rest sep (n + 1) := by
  rw [goSplitN_succ_succ, splitFirst_append t rest sep h]

/-- goSplitN of a separator-free string is that string alone. -/
theorem goSplitN_no_sep (s : Str) (sep : Char) (n : Nat) (h : sep ∉ s) :
    goSplitN s sep (n + 2) = [s] := by
  rw [goSplitN_succ_succ, splitFirst_none h]

/-- goSplitN never exceeds its budget. -/
theorem goSplitN_len_le : ∀ (n : Nat) (s : Str) (sep : Char), (goSplitN s sep n).length ≤ n
  | 0, _, _ => le_refl _
  | 1, s, sep => by rw [goSplitN_one]; exact le_refl _
  | n + 2, s, sep => by
    rw [goSplitN_succ_succ]
    cases hsf : splitFirst s sep with
    | none => simp
    | some p =>
      have := goSplitN_len_le (n + 1) p.2 sep
      obtain ⟨a, b⟩ := p
      simp only [List.length_cons]
      simp only at this
      omega

/-- goSplitN with a positive budget returns at least one token. -/
theorem goSplitN_ne_nil : ∀ (n : Nat) (s : Str) (sep : Char), goSplitN s sep (n + 1) ≠ []
  | 0, s, sep => by rw [goSplitN_one]; simp
  | n + 1, s, sep => by
    rw [show n + 1 + 1 = n + 2 from rfl, goSplitN_succ_succ]
    cases hsf : splitFirst s sep with
    | none => simp
    | some p => obtain ⟨a, b⟩ := p; simp

/-- Joining the tokens of goSplitN recovers the input. -/
theorem goJoin_goSplitN : ∀ (n : Nat) (s : Str) (sep : Char),
    goJoin (goSplitN s sep (n + 1)) sep = s
  | 0, s, sep => by rw [goSplitN_one]; rfl
  | n + 1, s, sep => by
    rw [show n + 1 + 1 = n + 2 from rfl, goSplitN_succ_succ]
    cases hsf : splitFirst s sep with
    | none => rfl
    | some p =>
      obtain ⟨a, b⟩ := p
      obtain ⟨hs, -⟩ := splitFirst_eq_some s sep a b hsf
      have ih := goJoin_goSplitN n b sep
      dsimp only
      cases hg : goSplitN b sep (n + 1) with
      | nil => exact absurd hg (goSplitN_ne_nil n b sep)
      | cons t ts =>
        rw [hg] at ih
        rw [goJoin_cons_cons, ih]
        exact hs.symm

/-- All tokens of goSplitN except the last are separator-free. -/
theorem goSplitN_dropLast_no_sep : ∀ (n : Nat) (s : Str) (sep : Char),
    ∀ t ∈ (goSplitN s sep n).dropLast, sep ∉ t
  | 0, s, sep => by intro t ht; cases ht
  | 1, s, sep => by rw [goSplitN_one]; intro t ht; cases ht
  | n + 2, s, sep => by
    rw [goSplitN_succ_succ]
    cases hsf : splitFirst s sep with
    | none => intro t ht; cases ht
    | some p =>
      obtain ⟨a, b⟩ := p
      obtain ⟨-, hfree⟩ := splitFirst_eq_some s sep a b hsf
      intro t ht
      have hne := goSplitN_ne_nil n b sep
      rw [List.dropLast_cons_of_ne_nil hne] at ht
      rcases List.mem_cons.mp ht with rfl | hm
      · exact hfree
      · exact goSplitN_dropLast_no_sep (n + 1) b sep t hm

/-- When goSplitN returns fewer tokens than its budget, every token
(including the last) is separator-free. -/
theorem goSplitN_short_no_sep : ∀ (n : Nat) (s : Str) (sep : Char),
    (goSplitN s sep n).length < n → ∀ t ∈ goSplitN s sep n, sep ∉ t
  | 0, s, sep => by intro h; omega
  | 1, s, sep => by rw [goSplitN_one]; intro h; simp at h
  | n + 2, s, sep => by
    rw [goSplitN_succ_succ]
    cases hsf : splitFirst s sep with
    | none =>
      intro hlen t ht
      rcases List.mem_singleton.mp ht with rfl
      exact fun hm => splitFirst_ne_none_of_mem hm hsf
    | some p =>
      obtain ⟨a, b⟩ := p
      obtain ⟨-, hfree⟩ := splitFirst_eq_some s sep a b hsf
      intro hlen t ht
      rcases List.mem_cons.mp ht with rfl | hm
      · exact hfree
      · exact goSplitN_short_no_sep (n + 1) b sep
          (by simp only [List.length_cons] at hlen; omega) t hm

/-- Unfolding lemma for goSplit on a cons cell. -/
theorem goSplit_cons (c : Char) (cs : Str) (sep : Char) :
    goSplit (c :: cs) sep
      = if c = sep then [] :: goSplit cs sep
        else
          match goSplit cs sep with
          | t :: ts => (c :: t) :: ts
          | [] => [[c]] := rfl

/-- goSplit never returns the empty list. -/
theorem goSplit_ne_nil : ∀ (s : Str) (sep : Char), goSplit s sep ≠ []
  | [], _ => by simp [goSplit]
  | c :: cs, sep => by
    rw [goSplit_cons]
    split
    · simp
    · cases hg : goSplit cs sep with
      | nil => simp
      | cons t ts => simp

/-- goSplit of a separator-free string is that string alone. -/
theorem goSplit_of_no_sep : ∀ (s : Str) (sep : Char), sep ∉ s → goSplit s sep = [s]
  | [], _, _ => rfl
  | c :: cs, sep, h => by
    rw [goSplit_cons]
    rw [if_neg (by intro hc; exact h (hc ▸ List.mem_cons_self c cs))]
    rw [goSplit_of_no_sep cs sep (fun hm => h (List.mem_cons_of_mem c hm))]

/-- goSplit peels one separator-free segment. -/
theorem goSplit_append : ∀ (a b : Str) (sep : Char), sep ∉ a →
    goSplit (a ++ sep :: b) sep = a :: goSplit b sep
  | [], b, sep, _ => by
    rw [List.nil_append, goSplit_cons, if_pos rfl]
  | c :: a, b, sep, h => by
    rw [List.cons_append, goSplit_cons]
    rw [if_neg (by intro hc; exact h (hc ▸ List.mem_cons_self c a))]
    rw [goSplit_append a b sep (fun hm => h (List.mem_cons_of_mem c hm))]

/-! ### Infrastructure for the round-trip claim: canonical label maps -/

/-- Characters with equal codes are equal. -/
theorem char_toNat_inj {a b : Char} (h : a.toNat = b.toNat) : a = b :=
  Char.eq_of_val_eq (UInt32.ext h)

/-- Unfolding lemma for strLt on two cons cells. -/
theorem strLt_cons_cons (a b : Char) (as bs : Str) :
    strLt (a :: as) (b :: bs)
      = if a.toNat < b.toNat then true
        else if b.toNat < a.toNat then false
        else strLt as bs := rfl

/-- strLt is irreflexive. -/
theorem strLt_irrefl : ∀ s : Str, strLt s s = false
  | [] => rfl
  | c :: cs => by
    rw [strLt_cons_cons, if_neg (lt_irrefl _), if_neg (lt_irrefl _)]
    exact strLt_irrefl cs

/-- strLt relates only distinct strings. -/
theorem strLt_ne : ∀ a b : Str, strLt a b = true → a ≠ b := by
  intro a b h he
  subst he
  rw [strLt_irrefl] at h
  cases h

/-- strLt is asymmetric. -/
theorem strLt_asymm : ∀ a b : Str, strLt a b = true → strLt b a = false
  | [], [], h => by cases h
  | [], _ :: _, _ => rfl
  | _ :: _, [], h => by cases h
  | a :: as, b :: bs, h => by
    rw [strLt_cons_cons] at h ⊢
    by_cases h1 : a.toNat < b.toNat
    · rw [if_neg (by omega), if_pos h1]
    · rw [if_neg h1] at h
      by_cases h2 : b.toNat < a.toNat
      · rw [if_pos h2] at h
        cases h
      · rw [if_neg h2] at h
        rw [if_neg h2, if_neg h1]
        exact strLt_asymm as bs h

/-- strLt is transitive. -/
theorem strLt_trans : ∀ a b c : Str, strLt a b = true → strLt b c = true →
    strLt a c = true
  | [], b, [], h1, h2 => by
    cases b with
    | nil => cases h1
    | cons x xs => cases h2
  | [], _, _ :: _, _, _ => rfl
  | _ :: _, [], _, h1, _ => by cases h1
  | _ :: _, _ :: _, [], _, h2 => by cases h2
  | a :: as, b :: bs, c :: cs, h1, h2 => by
    rw [strLt_cons_cons] at h1 h2 ⊢
    by_cases hab : a.toNat < b.toNat
    · by_cases hbc : b.toNat < c.toNat
      · rw [if_pos (by omega)]
      · rw [if_neg hbc] at h2
        by_cases hcb : c.toNat < b.toNat
        · rw [if_pos hcb] at h2; cases h2
        · rw [if_pos (by omega)]
    · rw [if_neg hab] at h1
      by_cases hba : b.toNat < a.toNat
      · rw [if_pos hba] at h1; cases h1
      · rw [if_neg hba] at h1
        by_cases hbc : b.toNat < c.toNat
        · rw [if_pos (by omega)]
        · rw [if_neg hbc] at h2
          by_cases hcb : c.toNat < b.toNat
          · rw [if_pos hcb] at h2; cases h2
          · rw [if_neg hcb] at h2
            rw [if_neg (by omega), if_neg (by omega)]
            exact strLt_trans as bs cs h1 h2

/-- strLt is total on distinct strings. -/
theorem strLt_connex : ∀ a b : Str, a ≠ b → strLt a b = true ∨ strLt b a = true
  | [], [], h => absurd rfl h
  | [], _ :: _, _ => Or.inl rfl
  | _ :: _, [], _ => Or.inr rfl
  | a :: as, b :: bs, h => by
    rw [strLt_cons_cons]
    by_cases hab : a.toNat < b.toNat
    · exact Or.inl (by rw [if_pos hab])
    · by_cases hba : b.toNat < a.toNat
      · refine Or.inr ?_
        rw [strLt_cons_cons, if_pos hba]
      · have hea : a = b := char_toNat_inj (by omega)
        subst hea
        have hne : as ≠ bs := fun he => h (by rw [he])
        rcases strLt_connex as bs hne with h1 | h1
        · exact Or.inl (by rw [if_neg hab, if_neg hba]; exact h1)
        · refine Or.inr ?_
          rw [strLt_cons_cons, if_neg hba, if_neg hab]
          exact h1

/-- Inserting a key above every existing key appends. -/
theorem canonInsert_append_max : ∀ (m : List (Str × Str)) (kv : Str × Str),
    (∀ x ∈ m, strLt x.1 kv.1 = true) → canonInsert m kv = m ++ [kv]
  | [], kv, _ => rfl
  | (k, v) :: rest, kv, h => by
    have hk : strLt k kv.1 = true := h (k, v) (List.mem_cons_self _ _)
    unfold canonInsert
    rw [if_neg (by rw [strLt_asymm _ _ hk]; simp)]
    rw [if_neg (Ne.symm (strLt_ne _ _ hk))]
    rw [canonInsert_append_max rest kv (fun x hx => h x (List.mem_cons_of_mem _ hx))]
    rfl

/-- Folding canonInsert over keys that all lie above the accumulator and
are themselves sorted appends the list. -/
theorem canonFold_append : ∀ (m acc : List (Str × Str)),
    (∀ x ∈ acc, ∀ y ∈ m, strLt x.1 y.1 = true) →
    m.Pairwise (fun x y => strLt x.1 y.1 = true) →
    m.foldl canonInsert acc = acc ++ m
  | [], acc, _, _ => by simp
  | kv :: m2, acc, hcross, hsort => by
    rw [List.foldl_cons]
    rw [canonInsert_append_max acc kv (fun x hx => hcross x hx kv (List.mem_cons_self _ _))]
    rw [List.pairwise_cons] at hsort
    rw [canonFold_append m2 (acc ++ [kv]) ?cross hsort.2]
    · simp
    case cross =>
      intro x hx y hy
      rcases List.mem_append.mp hx with hxa | hxkv
      · exact hcross x hxa y (List.mem_cons_of_mem _ hy)
      · rcases List.mem_singleton.mp hxkv with rfl
        exact hsort.1 y hy

/-- Canonicalizing an already canonical list is the identity. -/
theorem canonicalize_sorted_id (m : List (Str × Str))
    (h : m.Pairwise (fun x y => strLt x.1 y.1 = true)) : canonicalize m = m := by
  unfold canonicalize
  rw [canonFold_append m [] (by intro x hx; cases hx) h]
  simp

/-- Members of an insertion come from the list or are the inserted pair. -/
theorem canonInsert_mem : ∀ (m : List (Str × Str)) (kv x : Str × Str),
    x ∈ canonInsert m kv → x ∈ m ∨ x = kv
  | [], kv, x, h => Or.inr (List.mem_singleton.mp h)
  | (k, v) :: rest, kv, x, h => by
    unfold canonInsert at h
    split at h
    · rcases List.mem_cons.mp h with rfl | hm
      · exact Or.inr rfl
      · exact Or.inl hm
    · split at h
      · rcases List.mem_cons.mp h with rfl | hm
        · exact Or.inr rfl
        · exact Or.inl (List.mem_cons_of_mem _ hm)
      · rcases List.mem_cons.mp h with rfl | hm
        · exact Or.inl (List.mem_cons_self _ _)
        · rcases canonInsert_mem rest kv x hm with h1 | h1
          · exact Or.inl (List.mem_cons_of_mem _ h1)
          · exact Or.inr h1

/-- canonInsert preserves sortedness. -/
theorem canonInsert_sorted : ∀ (m : List (Str × Str)) (kv : Str × Str),
    m.Pairwise (fun x y => strLt x.1 y.1 = true) →
    (canonInsert m kv).Pairwise (fun x y => strLt x.1 y.1 = true)
  | [], kv, _ => by unfold canonInsert; simp
  | (k, v) :: rest, kv, h => by
    rw [List.pairwise_cons] at h
    obtain ⟨hhead, hrest⟩ := h
    unfold canonInsert
    split
    · rename_i hlt
      rw [List.pairwise_cons]
      refine ⟨?_, ?_⟩
      · intro y hy
        rcases List.mem_cons.mp hy with rfl | hm
        · exact hlt
        · exact strLt_trans _ _ _ hlt (hhead y hm)
      · rw [List.pairwise_cons]
        exact ⟨hhead, hrest⟩
    · split
      · rename_i hne heq
        rw [List.pairwise_cons]
        refine ⟨?_, hrest⟩
        intro y hy
        rw [heq]
        exact hhead y hy
      · rename_i hlt hne
        rw [List.pairwise_cons]
        refine ⟨?_, canonInsert_sorted rest kv hrest⟩
        intro y hy
        rcases canonInsert_mem rest kv y hy with h1 | h1
        · exact hhead y h1
        · rw [h1]
          rcases strLt_connex k kv.1 (fun he => hne (he.symm)) with h2 | h2
          · exact h2
          · exact absurd h2 (by simpa using hlt)

/-- canonicalize always yields a sorted list. -/
theorem canonicalize_sorted (l : List (Str × Str)) :
    (canonicalize l).Pairwise (fun x y => strLt x.1 y.1 = true) := by
  unfold canonicalize
  suffices h : ∀ acc, acc.Pairwise (fun x y : Str × Str => strLt x.1 y.1 = true) →
      (l.foldl canonInsert acc).Pairwise (fun x y => strLt x.1 y.1 = true) by
    exact h [] (by simp)
  induction l with
  | nil => intro acc hacc; simpa using hacc
  | cons kv l2 ih =>
    intro acc hacc
    rw [List.foldl_cons]
    exact ih (canonInsert acc kv) (canonInsert_sorted acc kv hacc)

/-- Members of a canonicalized list come from the original list. -/
theorem canonicalize_mem (l : List (Str × Str)) (x : Str × Str)
    (h : x ∈ canonicalize l) : x ∈ l := by
  unfold canonicalize at h
  suffices hgen : ∀ acc, x ∈ l.foldl canonInsert acc → x ∈ acc ∨ x ∈ l by
    rcases hgen [] h with h1 | h1
    · cases h1
    · exact h1
  clear h
  induction l with
  | nil => intro acc h; exact Or.inl (by simpa using h)
  | cons kv l2 ih =>
    intro acc h
    rw [List.foldl_cons] at h
    rcases ih (canonInsert acc kv) h with h1 | h1
    · rcases canonInsert_mem acc kv x h1 with h2 | h2
      · exact Or.inl h2
      · exact Or.inr (h2 ▸ List.mem_cons_self _ _)
    · exact Or.inr (List.mem_cons_of_mem _ h1)

/-! ### Infrastructure for the round-trip claim: JSON soundness -/

/-- skipWs keeps a string whose head is not whitespace. -/
theorem skipWs_no_ws {c : Char} (h : isJsonWs c = false) (r : Str) :
    skipWs (c :: r) = c :: r := by
  unfold skipWs
  rw [h]
  rfl

/-- Characters surviving skipWs come from the input. -/
theorem skipWs_subset : ∀ (s : Str) (c : Char), c ∈ skipWs s → c ∈ s
  | [], _, h => h
  | d :: ds, c, h => by
    unfold skipWs at h
    split at h
    · exact List.mem_cons_of_mem _ (skipWs_subset ds c h)
    · exact h

/-- Unfolding lemma for takeJStr with positive fuel. -/
theorem takeJStr_succ (fuel : Nat) (s : Str) :
    takeJStr (fuel + 1) s
      = match s with
        | [] => none
        | c :: r =>
          if c = '"' then some ([], r)
          else if c = '\\' then
            match r with
            | [] => none
            | e :: r2 =>
              if e = 'u' then
                match decodeU r2 with
                | none => none
                | some (ch, r3) => (takeJStr fuel r3).map (fun p => (ch :: p.1, p.2))
              else
                match escChar e with
                | none => none
                | some ch => (takeJStr fuel r2).map (fun p => (ch :: p.1, p.2))
          else if c.toNat < 32 then none
          else (takeJStr fuel r).map (fun p => (c :: p.1, p.2)) := rfl

/-- Hexadecimal digit characters are hexadecimal digits, decode to their
value, and are never the pipe. -/
theorem hexDigitChar_spec : ∀ n, n < 16 →
    isHexDigitC (hexDigitChar n) = true ∧ hexDigitVal (hexDigitChar n) = n
    ∧ hexDigitChar n ≠ '|' := by decide

/-- getu4 on four hexadecimal digits. -/
theorem getu4_cons (a b c d : Char) (rest : Str) (ha : isHexDigitC a = true)
    (hb : isHexDigitC b = true) (hc : isHexDigitC c = true) (hd : isHexDigitC d = true) :
    getu4 (a :: b :: c :: d :: rest) = some (hexVal [a, b, c, d], rest) := by
  show (if (isHexDigitC a && isHexDigitC b && isHexDigitC c && isHexDigitC d) = true
      then some (hexVal [a, b, c, d], rest) else none)
    = some (hexVal [a, b, c, d], rest)
  rw [ha, hb, hc, hd]
  rfl

/-- Value of a 00xy hexadecimal digit block. -/
theorem hexVal_00 (x y : Char) :
    hexVal ['0', '0', x, y] = hexDigitVal x * 16 + hexDigitVal y := by
  unfold hexVal
  simp only [List.foldl_cons, List.foldl_nil,
    show hexDigitVal '0' = 0 from rfl]
  omega

/-- encodeStr distributes over cons. -/
theorem encodeStr_cons (c : Char) (s : Str) :
    encodeStr (c :: s) = encChar c ++ encodeStr s := rfl

/-- Every character encodes to at least one character. -/
theorem encChar_length (c : Char) : 1 ≤ (encChar c).length := by
  unfold encChar
  split_ifs <;> simp

/-- The encoded body is at least as long as the string. -/
theorem encodeStr_length : ∀ s : Str, s.length ≤ (encodeStr s).length
  | [] => le_refl _
  | c :: s => by
    rw [encodeStr_cons]
    have h1 := encChar_length c
    have h2 := encodeStr_length s
    simp only [List.length_cons, List.length_append]
    omega

/-- The encoding of a non-pipe character avoids the pipe. -/
theorem encChar_pipe_free (c : Char) (h : c ≠ '|') : '|' ∉ encChar c := by
  unfold encChar
  by_cases h1 : c = '"'
  · rw [if_pos h1]; decide
  · rw [if_neg h1]
    by_cases h2 : c = '\\'
    · rw [if_pos h2]; decide
    · rw [if_neg h2]
      by_cases h3 : c = '\n'
      · rw [if_pos h3]; decide
      · rw [if_neg h3]
        by_cases h4 : c = '\r'
        · rw [if_pos h4]; decide
        · rw [if_neg h4]
          by_cases h5 : c = '\t'
          · rw [if_pos h5]; decide
          · rw [if_neg h5]
            by_cases h6 : c.toNat < 32 ∨ c = '<' ∨ c = '>' ∨ c = '&'
            · rw [if_pos h6]
              have hb : c.toNat < 256 := by
                rcases h6 with hh | hh | hh | hh
                · omega
                · rw [hh]; decide
                · rw [hh]; decide
                · rw [hh]; decide
              have hx := (hexDigitChar_spec (c.toNat / 16) (by omega)).2.2
              have hy := (hexDigitChar_spec (c.toNat % 16) (by omega)).2.2
              intro hmem
              simp only [List.mem_cons, List.not_mem_nil, or_false] at hmem
              rcases hmem with hm | hm | hm | hm | hm | hm
              · exact absurd hm (by decide)
              · exact absurd hm (by decide)
              · exact absurd hm (by decide)
              · exact absurd hm (by decide)
              · exact hx hm.symm
              · exact hy hm.symm
            · rw [if_neg h6]
              by_cases h7 : c = '\u2028' ∨ c = '\u2029'
              · rw [if_pos h7]
                have hy := (hexDigitChar_spec (c.toNat % 16) (by omega)).2.2
                intro hmem
                simp only [List.mem_cons, List.not_mem_nil, or_false] at hmem
                rcases hmem with hm | hm | hm | hm | hm | hm
                · exact absurd hm (by decide)
                · exact absurd hm (by decide)
                · exact absurd hm (by decide)
                · exact absurd hm (by decide)
                · exact absurd hm (by decide)
                · exact hy hm.symm
              · rw [if_neg h7]
                intro hmem
                exact h (List.mem_singleton.mp hmem).symm

/-- The encoded body of a pipe-free string is pipe-free. -/
theorem encodeStr_pipe_free : ∀ s : Str, '|' ∉ s → '|' ∉ encodeStr s
  | [], _ => by simp [encodeStr]
  | c :: s, h => by
    rw [encodeStr_cons]
    intro hmem
    rcases List.mem_append.mp hmem with h1 | h1
    · exact encChar_pipe_free c
        (fun he => h (by rw [← he]; exact List.mem_cons_self _ _)) h1
    · exact encodeStr_pipe_free s (fun hm => h (List.mem_cons_of_mem _ hm)) h1

/-- Decoding one encoded character consumes it and continues. -/
theorem takeJStr_encChar (fuel : Nat) (c : Char) (tail : Str) :
    takeJStr (fuel + 1) (encChar c ++ tail)
      = (takeJStr fuel tail).map (fun p => (c :: p.1, p.2)) := by
  by_cases h1 : c = '"'
  · subst h1; rfl
  · by_cases h2 : c = '\\'
    · subst h2; rfl
    · by_cases h3 : c = '\n'
      · subst h3; rfl
      · by_cases h4 : c = '\r'
        · subst h4; rfl
        · by_cases h5 : c = '\t'
          · subst h5; rfl
          · by_cases h6 : c.toNat < 32 ∨ c = '<' ∨ c = '>' ∨ c = '&'
            · have he : encChar c = ['\\', 'u', '0', '0', hexDigitChar (c.toNat / 16),
                  hexDigitChar (c.toNat % 16)] := by
                unfold encChar
                rw [if_neg h1, if_neg h2, if_neg h3, if_neg h4, if_neg h5, if_pos h6]
              have hb : c.toNat < 256 := by
                rcases h6 with hh | hh | hh | hh
                · omega
                · rw [hh]; decide
                · rw [hh]; decide
                · rw [hh]; decide
              have hx := hexDigitChar_spec (c.toNat / 16) (by omega)
              have hy := hexDigitChar_spec (c.toNat % 16) (by omega)
              have hdec : decodeU ('0' :: '0' :: hexDigitChar (c.toNat / 16)
                  :: hexDigitChar (c.toNat % 16) :: tail) = some (c, tail) := by
                unfold decodeU
                rw [getu4_cons _ _ _ _ _ (by decide) (by decide) hx.1 hy.1]
                dsimp only
                rw [hexVal_00, hx.2.1, hy.2.1,
                  show c.toNat / 16 * 16 + c.toNat % 16 = c.toNat from by omega]
                rw [show isSurr c.toNat = false from by
                  unfold isSurr
                  rw [decide_eq_false (show ¬ 55296 ≤ c.toNat from by omega)]
                  rfl]
                rw [if_neg (by decide), Char.ofNat_toNat]
              rw [he]
              show (match decodeU ('0' :: '0' :: hexDigitChar (c.toNat / 16)
                    :: hexDigitChar (c.toNat % 16) :: tail) with
                  | none => none
                  | some (ch, r3) => (takeJStr fuel r3).map (fun p => (ch :: p.1, p.2)))
                = (takeJStr fuel tail).map (fun p => (c :: p.1, p.2))
              rw [hdec]
            · by_cases h7 : c = '\u2028' ∨ c = '\u2029'
              · rcases h7 with h7 | h7
                · subst h7; rfl
                · subst h7; rfl
              · have he : encChar c = [c] := by
                  unfold encChar
                  rw [if_neg h1, if_neg h2, if_neg h3, if_neg h4, if_neg h5, if_neg h6,
                    if_neg h7]
                rw [he, List.singleton_append, takeJStr_succ]
                dsimp only
                rw [if_neg h1, if_neg h2,
                  if_neg (show ¬ c.toNat < 32 from fun hlt => h6 (Or.inl hlt))]

/-- Decoding the encoded body recovers the string. -/
theorem takeJStr_encodeStr : ∀ (s : Str) (fuel : Nat) (rest : Str), s.length < fuel →
    takeJStr fuel (encodeStr s ++ '"' :: rest) = some (s, rest)
  | [], fuel, rest, h => by
    cases fuel with
    | zero => omega
    | succ f => rfl
  | c :: cs, fuel, rest, h => by
    cases fuel with
    | zero => simp at h
    | succ f =>
      rw [encodeStr_cons, List.append_assoc, takeJStr_encChar]
      rw [takeJStr_encodeStr cs f rest (by simp only [List.length_cons] at h; omega)]
      rfl

/-- Unfolding lemma for parseJString on a cons cell. -/
theorem parseJString_cons (c : Char) (rest : Str) :
    parseJString (c :: rest)
      = if c = '"' then takeJStr (rest.length + 1) rest else none := rfl

/-- parseJString consumes one quoted, escape-encoded string. -/
theorem parseJString_quote (s rest : Str) :
    parseJString (quoteJ s ++ rest) = some (s, rest) := by
  show parseJString ('"' :: (encodeStr s ++ ['"']) ++ rest) = some (s, rest)
  rw [List.cons_append, parseJString_cons, if_pos rfl, List.append_assoc,
    List.singleton_append]
  refine takeJStr_encodeStr s _ rest ?_
  have h1 := encodeStr_length s
  simp only [List.length_append, List.length_cons]
  omega

/-- Unfolding lemma for parseMembers with positive fuel. -/
theorem parseMembers_succ (fuel : Nat) (s : Str) :
    parseMembers (fuel + 1) s
      = match parseJString (skipWs s) with
        | none => none
        | some (k, r1) =>
          match skipWs r1 with
          | [] => none
          | c :: r2 =>
            if c = ':' then
              match parseJString (skipWs r2) with
              | none => none
              | some (v, r3) =>
                match skipWs r3 with
                | [] => none
                | c2 :: r4 =>
                  if c2 = ',' then
                    (parseMembers fuel r4).map (fun p => ((k, v) :: p.1, p.2))
                  else if c2 = '}' then some ([(k, v)], r4)
                  else none
            else none := rfl

/-- skipWs keeps a quoted string. -/
theorem skipWs_quoteJ_append (s rest : Str) : skipWs (quoteJ s ++ rest) = quoteJ s ++ rest := by
  show skipWs ('"' :: (encodeStr s ++ ['"']) ++ rest) = '"' :: (encodeStr s ++ ['"']) ++ rest
  rw [List.cons_append]
  exact skipWs_no_ws (by decide) _

/-- Parsing the printed members recovers them. -/
theorem printMembers_roundtrip : ∀ (m : List (Str × Str)) (rest : Str) (fuel : Nat),
    m ≠ [] → m.length ≤ fuel →
    parseMembers fuel (printMembers m ++ '}' :: rest) = some (m, rest)
  | [], _, _, hne, _ => absurd rfl hne
  | (k, v) :: m2, rest, fuel, _, hlen => by
    cases fuel with
    | zero => simp at hlen
    | succ f =>
      rw [parseMembers_succ]
      cases m2 with
      | nil =>
        show (match parseJString (skipWs ((quoteJ k ++ ':' :: quoteJ v) ++ '}' :: rest)) with
          | none => none
          | some (k, r1) => _) = _
        rw [List.append_assoc, List.cons_append, skipWs_quoteJ_append,
          parseJString_quote k _]
        dsimp only
        rw [skipWs_no_ws (by decide)]
        dsimp only
        rw [if_pos rfl, skipWs_quoteJ_append, parseJString_quote v _]
        dsimp only
        rw [skipWs_no_ws (by decide)]
        dsimp only
        rw [if_neg (by decide), if_pos rfl]
      | cons kv2 m3 =>
        show (match parseJString (skipWs ((quoteJ k ++ ':' :: quoteJ v ++
            ',' :: printMembers (kv2 :: m3)) ++ '}' :: rest)) with
          | none => none
          | some (k, r1) => _) = _
        rw [List.append_assoc, List.cons_append, List.append_assoc, List.cons_append,
          skipWs_quoteJ_append, parseJString_quote k _]
        dsimp only
        rw [skipWs_no_ws (by decide)]
        dsimp only
        rw [if_pos rfl, skipWs_quoteJ_append, parseJString_quote v _]
        dsimp only
        rw [skipWs_no_ws (by decide)]
        dsimp only
        rw [if_pos rfl]
        rw [printMembers_roundtrip (kv2 :: m3) rest f (by simp)
          (by simp only [List.length_cons] at hlen ⊢; omega)]
        rfl

/-- Unfolding lemma for printMembers with at least two members. -/
theorem printMembers_cons_cons (k v : Str) (kv2 : Str × Str) (m3 : List (Str × Str)) :
    printMembers ((k, v) :: kv2 :: m3)
      = quoteJ k ++ ':' :: quoteJ v ++ ',' :: printMembers (kv2 :: m3) := rfl

/-- Unfolding lemma for printMembers with one member. -/
theorem printMembers_singleton (k v : Str) :
    printMembers [(k, v)] = quoteJ k ++ ':' :: quoteJ v := rfl

/-- A quoted pipe-free string is pipe-free. -/
theorem quoteJ_pipe_free {s : Str} (h : '|' ∉ s) : '|' ∉ quoteJ s := by
  intro hmem
  have h2 : '|' ∈ '"' :: (encodeStr s ++ ['"']) := by
    simpa [quoteJ] using hmem
  rcases List.mem_cons.mp h2 with h3 | h3
  · exact absurd h3 (by decide)
  · rcases List.mem_append.mp h3 with h4 | h4
    · exact encodeStr_pipe_free s h h4
    · exact absurd (List.mem_singleton.mp h4) (by decide)

/-- The printed members are at least as long as the member list. -/
theorem printMembers_length_ge : ∀ m : List (Str × Str), m.length ≤ (printMembers m).length
  | [] => le_refl _
  | [(k, v)] => by
    rw [printMembers_singleton]
    simp [quoteJ]
  | (k, v) :: kv2 :: m3 => by
    have ih := printMembers_length_ge (kv2 :: m3)
    rw [printMembers_cons_cons]
    simp only [List.length_cons, List.length_append, quoteJ] at ih ⊢
    omega

/-- Every printed member list with a first member starts with a quote. -/
theorem printMembers_cons_head (kv : Str × Str) (m2 : List (Str × Str)) :
    ∃ t, printMembers (kv :: m2) = '"' :: t := by
  obtain ⟨k, v⟩ := kv
  cases m2 with
  | nil =>
    rw [printMembers_singleton]
    refine ⟨(encodeStr k ++ ['"']) ++ ':' :: quoteJ v, ?_⟩
    rw [show quoteJ k = '"' :: (encodeStr k ++ ['"']) from rfl]
    simp [List.append_assoc]
  | cons kv2 m3 =>
    rw [printMembers_cons_cons]
    refine ⟨(encodeStr k ++ ['"']) ++ (':' :: quoteJ v ++ ',' :: printMembers (kv2 :: m3)), ?_⟩
    rw [show quoteJ k = '"' :: (encodeStr k ++ ['"']) from rfl]
    simp [List.append_assoc]

/-- Parsing the marshalled object recovers the member list. -/
theorem parseJsonObj_marshal (m : List (Str × Str)) :
    parseJsonObj (goJsonMarshalMap m) = some (m, []) := by
  rw [show goJsonMarshalMap m = '{' :: (printMembers m ++ ['}']) from rfl]
  unfold parseJsonObj
  rw [skipWs_no_ws (by decide)]
  dsimp only
  rw [if_pos rfl]
  cases m with
  | nil =>
    rw [show printMembers ([] : List (Str × Str)) = [] from rfl, List.nil_append]
    rw [skipWs_no_ws (by decide)]
    dsimp only
    rw [if_pos rfl]
  | cons kv m2 =>
    obtain ⟨t, ht⟩ := printMembers_cons_head kv m2
    rw [ht, List.cons_append, skipWs_no_ws (by decide)]
    dsimp only
    rw [if_neg (by decide)]
    rw [← List.cons_append, ← ht]
    have hr := printMembers_roundtrip (kv :: m2) []
      ((printMembers (kv :: m2) ++ ['}']).length + 1) (by simp)
      (by
        have := printMembers_length_ge (kv :: m2)
        simp only [List.length_append]
        omega)
    rw [show printMembers (kv :: m2) ++ ['}'] = printMembers (kv :: m2) ++ '}' :: [] from rfl]
    exact hr

/-- Unmarshalling the marshalled canonical map recovers it. -/
theorem goJsonUnmarshalMap_marshal (m : List (Str × Str))
    (hsorted : m.Pairwise (fun x y => strLt x.1 y.1 = true)) :
    goJsonUnmarshalMap (goJsonMarshalMap m) = some (some m) := by
  unfold goJsonUnmarshalMap
  rw [show skipWs (goJsonMarshalMap m) = '{' :: (printMembers m ++ ['}']) from
    skipWs_no_ws (by decide) _]
  rw [show nullRest ('{' :: (printMembers m ++ ['}'])) = none from rfl]
  rw [parseJsonObj_marshal m]
  dsimp only
  rw [if_pos (show skipWs ([] : Str) = [] from rfl)]
  rw [canonicalize_sorted_id m hsorted]

/-- The pipe character never occurs in printed members whose strings avoid
it. -/
theorem printMembers_pipe_free : ∀ m : List (Str × Str),
    (∀ kv ∈ m, '|' ∉ kv.1 ∧ '|' ∉ kv.2) → '|' ∉ printMembers m
  | [] => by intro _ hmem; simp [printMembers] at hmem
  | [(k, v)] => by
    intro h hmem
    obtain ⟨hk, hv⟩ := h (k, v) (List.mem_cons_self _ _)
    rw [printMembers_singleton] at hmem
    rcases List.mem_append.mp hmem with h1 | h1
    · exact quoteJ_pipe_free hk h1
    · rcases List.mem_cons.mp h1 with h2 | h2
      · exact absurd h2 (by decide)
      · exact quoteJ_pipe_free hv h2
  | (k, v) :: kv2 :: m3 => by
    intro h hmem
    obtain ⟨hk, hv⟩ := h (k, v) (List.mem_cons_self _ _)
    have ih := printMembers_pipe_free (kv2 :: m3)
      (fun kv hkv => h kv (List.mem_cons_of_mem _ hkv))
    rw [printMembers_cons_cons] at hmem
    rcases List.mem_append.mp hmem with h1 | h1
    · rcases List.mem_append.mp h1 with h2 | h2
      · exact quoteJ_pipe_free hk h2
      · rcases List.mem_cons.mp h2 with h3 | h3
        · exact absurd h3 (by decide)
        · exact quoteJ_pipe_free hv h3
    · rcases List.mem_cons.mp h1 with h3 | h3
      · exact absurd h3 (by decide)
      · exact ih h3

/-- The pipe character never occurs in a marshalled map whose strings
avoid it. -/
theorem goJsonMarshalMap_pipe_free (m : List (Str × Str))
    (h : ∀ kv ∈ m, '|' ∉ kv.1 ∧ '|' ∉ kv.2) : '|' ∉ goJsonMarshalMap m := by
  intro hmem
  rw [show goJsonMarshalMap m = '{' :: (printMembers m ++ ['}']) from rfl] at hmem
  rcases List.mem_cons.mp hmem with h1 | h1
  · exact absurd h1 (by decide)
  · rcases List.mem_append.mp h1 with h2 | h2
    · exact printMembers_pipe_free m h h2
    · exact absurd (List.mem_singleton.mp h2) (by decide)

/-! ### Infrastructure for the round-trip claim: parser characterizations -/

/-- Every segment of goSplit is separator-free. -/
theorem goSplit_mem_no_sep : ∀ (s : Str) (sep : Char), ∀ t ∈ goSplit s sep, sep ∉ t
  | [], sep => by
    intro t ht
    rcases List.mem_singleton.mp ht with rfl
    simp
  | c :: cs, sep => by
    intro t ht
    rw [goSplit_cons] at ht
    by_cases hc : c = sep
    · rw [if_pos hc] at ht
      rcases List.mem_cons.mp ht with rfl | hm
      · simp
      · exact goSplit_mem_no_sep cs sep t hm
    · rw [if_neg hc] at ht
      cases hg : goSplit cs sep with
      | nil => exact absurd hg (goSplit_ne_nil cs sep)
      | cons u us =>
        rw [hg] at ht
        rcases List.mem_cons.mp ht with rfl | hm
        · intro hmem
          rcases List.mem_cons.mp hmem with rfl | hm2
          · exact hc rfl
          · exact goSplit_mem_no_sep cs sep u (hg ▸ List.mem_cons_self _ _) hm2
        · exact goSplit_mem_no_sep cs sep t (hg ▸ List.mem_cons_of_mem _ hm)

/-- Characterization of a successful NodeGroupSpec validation. -/
theorem validate_none_iff (s : NodeGroupSpec) :
    s.Validate = none ↔
      ((s.supportScaleToZero = true → 0 ≤ s.minSize)
        ∧ (s.supportScaleToZero = false → 1 ≤ s.minSize)
        ∧ s.minSize ≤ s.maxSize ∧ s.name ≠ []) := by
  unfold NodeGroupSpec.Validate
  by_cases hstz : s.supportScaleToZero <;>
    simp only [hstz, if_true, if_false, Bool.true_eq_false, Bool.false_eq_true] <;>
    split_ifs <;> simp_all <;> omega

/-- Joining four tokens with a separator. -/
theorem goJoin_four (a b c d : Str) (sep : Char) :
    goJoin [a, b, c, d] sep = a ++ sep :: (b ++ sep :: (c ++ sep :: d)) := rfl

/-- A list of length four is four cons cells. -/
theorem list_len_four {α : Type} : ∀ l : List α, l.length = 4 →
    ∃ a b c d, l = [a, b, c, d]
  | [a, b, c, d], _ => ⟨a, b, c, d, rfl⟩
  | [], h => by simp at h
  | [_], h => by simp at h
  | [_, _], h => by simp at h
  | [_, _, _], h => by simp at h
  | _ :: _ :: _ :: _ :: _ :: _, h => by
    simp only [List.length_cons] at h
    omega

/-- A list of length five is five cons cells. -/
theorem list_len_five {α : Type} : ∀ l : List α, l.length = 5 →
    ∃ a b c d e, l = [a, b, c, d, e]
  | [a, b, c, d, e], _ => ⟨a, b, c, d, e, rfl⟩
  | [], h => by simp at h
  | [_], h => by simp at h
  | [_, _], h => by simp at h
  | [_, _, _], h => by simp at h
  | [_, _, _, _], h => by simp at h
  | _ :: _ :: _ :: _ :: _ :: _ :: _, h => by
    simp only [List.length_cons] at h
    omega

/-- Splitting the serialized four-token prefix recovers the tokens. -/
theorem goSplitN_four_tokens (t0 t1 t2 t3 : Str) (h0 : ':' ∉ t0) (h1 : ':' ∉ t1)
    (h2 : ':' ∉ t2) :
    goSplitN (t0 ++ ':' :: (t1 ++ ':' :: (t2 ++ ':' :: t3))) ':' 4
      = [t0, t1, t2, t3] := by
  rw [show (4 : Nat) = 2 + 2 from rfl, goSplitN_cons_tok _ _ _ _ h0]
  rw [show (2 + 1 : Nat) = 1 + 2 from rfl, goSplitN_cons_tok _ _ _ _ h1]
  rw [show (1 + 1 : Nat) = 0 + 2 from rfl, goSplitN_cons_tok _ _ _ _ h2]
  rw [goSplitN_one]

/-- Inversion of SpecFromPolicyString on a join of four tokens whose first
three are colon-free. -/
theorem specFromPolicyString_tokens (t0 t1 t2 t3 : Str) (stz : Bool) (spec : NodeGroupSpec)
    (h0 : ':' ∉ t0) (h1 : ':' ∉ t1) (h2 : ':' ∉ t2)
    (h : SpecFromPolicyString (goJoin [t0, t1, t2, t3] ':') stz = some spec) :
    goAtoi t0 = (spec.minSize, true) ∧ goAtoi t1 = (spec.maxSize, true)
    ∧ (t2 = policyDelete ∨ t2 = policyDeallocate)
    ∧ spec = { name := t3, minSize := spec.minSize, maxSize := spec.maxSize,
               scaleDownPolicy := t2, supportScaleToZero := stz }
    ∧ spec.Validate = none := by
  rw [goJoin_four] at h
  unfold SpecFromPolicyString at h
  rw [goSplitN_four_tokens t0 t1 t2 t3 h0 h1 h2] at h
  dsimp only at h
  cases ha0 : goAtoi t0 with
  | mk v0 b0 =>
    rw [ha0] at h
    cases b0 with
    | false => dsimp only at h; cases h
    | true =>
      dsimp only at h
      cases ha1 : goAtoi t1 with
      | mk v1 b1 =>
        rw [ha1] at h
        cases b1 with
        | false => dsimp only at h; cases h
        | true =>
          dsimp only at h
          by_cases hpol : t2 = policyDelete ∨ t2 = policyDeallocate
          · rw [if_pos hpol] at h
            cases hv : NodeGroupSpec.Validate ⟨t3, v0, v1, [], none, t2, stz⟩ with
            | some e => rw [hv] at h; cases h
            | none =>
              rw [hv] at h
              simp only [Option.some.injEq] at h
              subst h
              exact ⟨rfl, rfl, hpol, rfl, hv⟩
          · rw [if_neg hpol] at h
            cases h

/-- Forward evaluation of SpecFromPolicyString on a join of good tokens. -/
theorem specFromPolicyString_eval (t0 t1 t2 t3 : Str) (stz : Bool) (v0 v1 : Int)
    (h0 : ':' ∉ t0) (h1 : ':' ∉ t1) (h2 : ':' ∉ t2)
    (ha0 : goAtoi t0 = (v0, true)) (ha1 : goAtoi t1 = (v1, true))
    (hpol : t2 = policyDelete ∨ t2 = policyDeallocate)
    (hv : NodeGroupSpec.Validate ⟨t3, v0, v1, [], none, t2, stz⟩ = none) :
    SpecFromPolicyString (goJoin [t0, t1, t2, t3] ':') stz
      = some ⟨t3, v0, v1, [], none, t2, stz⟩ := by
  rw [goJoin_four]
  unfold SpecFromPolicyString
  rw [goSplitN_four_tokens t0 t1 t2 t3 h0 h1 h2]
  dsimp only
  rw [ha0]
  dsimp only
  rw [ha1]
  dsimp only
  rw [if_pos hpol, hv]

/-- Re-parsing the serialization of a well-formed spec succeeds, with the
labels canonicalized to an explicit (possibly empty) map. -/
theorem serialize_reparse (spec : NodeGroupSpec)
    (hval : spec.Validate = none)
    (hminr : spec.minSize ≤ int64Max) (hmaxr : spec.maxSize ≤ int64Max)
    (hpol : spec.scaleDownPolicy = policyDelete ∨ spec.scaleDownPolicy = policyDeallocate)
    (hname : ':' ∉ spec.name)
    (hlab : ∀ m, spec.labels = some m →
      m.Pairwise (fun x y => strLt x.1 y.1 = true)
      ∧ ∀ kv ∈ m, '|' ∉ kv.1 ∧ '|' ∉ kv.2)
    (htaints : '|' ∉ spec.taints) :
    SpecFromStringWithLabelsAndTaints spec.StringWithLabelsAndTaints spec.supportScaleToZero
      = some { spec with labels := some (spec.labels.getD []) } := by
  obtain ⟨hv1, hv2, hv3, hv4⟩ := (validate_none_iff spec).mp hval
  have hmin0 : 0 ≤ spec.minSize := by
    cases hstz : spec.supportScaleToZero with
    | true => exact hv1 hstz
    | false => have := hv2 hstz; omega
  have hmax0 : 0 ≤ spec.maxSize := le_trans hmin0 hv3
  have hLsorted : (spec.labels.getD []).Pairwise (fun x y => strLt x.1 y.1 = true) := by
    cases hl : spec.labels with
    | none => simp
    | some m => exact (hlab m hl).1
  have hLpipe : ∀ kv ∈ spec.labels.getD [], '|' ∉ kv.1 ∧ '|' ∉ kv.2 := by
    cases hl : spec.labels with
    | none => intro kv hkv; cases hkv
    | some m =>
      intro kv hkv
      exact (hlab m hl).2 kv hkv
  have hser : spec.StringWithLabelsAndTaints
      = intToStr spec.minSize ++ ':' :: (intToStr spec.maxSize ++ ':' ::
        (spec.scaleDownPolicy ++ ':' :: (spec.name ++ ':' ::
        (goJsonMarshalMap (spec.labels.getD []) ++ '|' :: spec.taints)))) := by
    unfold NodeGroupSpec.StringWithLabelsAndTaints
    simp only [List.append_assoc, List.cons_append]
  have hc0 : ':' ∉ intToStr spec.minSize := not_mem_intToStr (by decide) _ hmin0
  have hc1 : ':' ∉ intToStr spec.maxSize := not_mem_intToStr (by decide) _ hmax0
  have hc2 : ':' ∉ spec.scaleDownPolicy := by
    rcases hpol with hp | hp <;> rw [hp] <;> decide
  have htokens : goSplitN spec.StringWithLabelsAndTaints ':' 5
      = [intToStr spec.minSize, intToStr spec.maxSize, spec.scaleDownPolicy, spec.name,
          goJsonMarshalMap (spec.labels.getD []) ++ '|' :: spec.taints] := by
    rw [hser]
    rw [show (5 : Nat) = 3 + 2 from rfl, goSplitN_cons_tok _ _ _ _ hc0]
    rw [show (3 + 1 : Nat) = 2 + 2 from rfl, goSplitN_cons_tok _ _ _ _ hc1]
    rw [show (2 + 1 : Nat) = 1 + 2 from rfl, goSplitN_cons_tok _ _ _ _ hc2]
    rw [show (1 + 1 : Nat) = 0 + 2 from rfl, goSplitN_cons_tok _ _ _ _ hname]
    rw [goSplitN_one]
  have ha0 : goAtoi (intToStr spec.minSize) = (spec.minSize, true) :=
    goAtoi_intToStr _ hmin0 hminr
  have ha1 : goAtoi (intToStr spec.maxSize) = (spec.maxSize, true) :=
    goAtoi_intToStr _ hmax0 hmaxr
  have hvlit : NodeGroupSpec.Validate
      ⟨spec.name, spec.minSize, spec.maxSize, [], none, spec.scaleDownPolicy,
        spec.supportScaleToZero⟩ = none := by
    rw [validate_none_iff]
    exact ⟨hv1, hv2, hv3, hv4⟩
  have hpoly := specFromPolicyString_eval (intToStr spec.minSize) (intToStr spec.maxSize)
    spec.scaleDownPolicy spec.name spec.supportScaleToZero spec.minSize spec.maxSize
    hc0 hc1 hc2 ha0 ha1 hpol hvlit
  unfold SpecFromStringWithLabelsAndTaints
  rw [htokens]
  dsimp only
  rw [if_neg (by simp), if_neg (by simp)]
  rw [show ([intToStr spec.minSize, intToStr spec.maxSize, spec.scaleDownPolicy, spec.name,
      goJsonMarshalMap (spec.labels.getD []) ++ '|' :: spec.taints].take 4)
      = [intToStr spec.minSize, intToStr spec.maxSize, spec.scaleDownPolicy, spec.name]
      from rfl]
  rw [hpoly]
  dsimp only
  rw [if_pos (by simp)]
  have hsplit : goSplit (goJsonMarshalMap (spec.labels.getD []) ++ '|' :: spec.taints) '|'
      = [goJsonMarshalMap (spec.labels.getD []), spec.taints] := by
    rw [goSplit_append _ _ _ (goJsonMarshalMap_pipe_free _ hLpipe)]
    rw [goSplit_of_no_sep _ _ htaints]
  rw [show ([intToStr spec.minSize, intToStr spec.maxSize, spec.scaleDownPolicy, spec.name,
      goJsonMarshalMap (spec.labels.getD []) ++ '|' :: spec.taints].getD 4 ([] : Str))
      = goJsonMarshalMap (spec.labels.getD []) ++ '|' :: spec.taints from rfl]
  rw [hsplit]
  rw [show ([goJsonMarshalMap (spec.labels.getD []), spec.taints].getD 0 ([] : Str))
      = goJsonMarshalMap (spec.labels.getD []) from rfl]
  rw [goJsonUnmarshalMap_marshal _ hLsorted]
  dsimp only
  rw [if_pos (by simp)]
  rfl

/-- A successful unmarshal of an object yields a sorted map. -/
theorem goJsonUnmarshalMap_sorted (s : Str) (m : List (Str × Str))
    (h : goJsonUnmarshalMap s = some (some m)) :
    m.Pairwise (fun x y => strLt x.1 y.1 = true) := by
  unfold goJsonUnmarshalMap at h
  cases hn : nullRest (skipWs s) with
  | some r =>
    rw [hn] at h
    dsimp only at h
    by_cases hr : skipWs r = []
    · rw [if_pos hr] at h
      injection h with h1
      cases h1
    · rw [if_neg hr] at h
      cases h
  | none =>
    rw [hn] at h
    dsimp only at h
    cases hp : parseJsonObj s with
    | none => rw [hp] at h; cases h
    | some p =>
      rw [hp] at h
      dsimp only at h
      by_cases hr : skipWs p.2 = []
      · rw [if_pos hr] at h
        injection h with h1
        injection h1 with h2
        rw [← h2]
        exact canonicalize_sorted p.1
      · rw [if_neg hr] at h
        cases h


/-- C6: round-trip of the extended (four- or five-token) node-group spec
form: any spec accepted by SpecFromStringWithLabelsAndTaints from a value
that does not take the three-token legacy path, and whose decoded label
keys and values are free of the pipe separator, reparses from its own
serialization with the labels canonicalized to an explicit (possibly
empty) map. The pipe condition is necessary: a JSON \u007c escape decodes
to a pipe that json.Marshal re-emits verbatim, splitting the serialized
labels token. -/
theorem specFromStringWithLabelsAndTaints_roundtrip (value : Str) (stz : Bool)
    (spec : NodeGroupSpec)
    (hp : SpecFromStringWithLabelsAndTaints value stz = some spec)
    (hlen : (goSplitN value ':' 5).length ≠ 3)
    (hpipe : ∀ kv ∈ spec.labels.getD ([] : List (Str × Str)), '|' ∉ kv.1 ∧ '|' ∉ kv.2) :
    SpecFromStringWithLabelsAndTaints spec.StringWithLabelsAndTaints spec.supportScaleToZero
      = some { spec with labels := some (spec.labels.getD []) } := by
  have hle : (goSplitN value ':' 5).length ≤ 5 := goSplitN_len_le 5 value ':'
  by_cases h4 : (goSplitN value ':' 5).length < 4
  · unfold SpecFromStringWithLabelsAndTaints at hp
    dsimp only at hp
    rw [if_neg hlen, if_pos h4] at hp
    cases hp
  · have h45 : (goSplitN value ':' 5).length = 4 ∨ (goSplitN value ':' 5).length = 5 := by
      omega
    rcases h45 with h4eq | h5eq
    · obtain ⟨t0, t1, t2, t3, heq⟩ := list_len_four _ h4eq
      have hshort : ∀ t ∈ goSplitN value ':' 5, ':' ∉ t :=
        goSplitN_short_no_sep 5 value ':' (by omega)
      have hfree0 : ':' ∉ t0 := hshort t0 (by rw [heq]; simp)
      have hfree1 : ':' ∉ t1 := hshort t1 (by rw [heq]; simp)
      have hfree2 : ':' ∉ t2 := hshort t2 (by rw [heq]; simp)
      have hfree3 : ':' ∉ t3 := hshort t3 (by rw [heq]; simp)
      unfold SpecFromStringWithLabelsAndTaints at hp
      dsimp only at hp
      rw [heq] at hp
      rw [if_neg (by simp), if_neg (by simp)] at hp
      rw [show (([t0, t1, t2, t3] : List Str).take 4) = [t0, t1, t2, t3] from rfl] at hp
      cases hps : SpecFromPolicyString (goJoin [t0, t1, t2, t3] ':') stz with
      | none => rw [hps] at hp; cases hp
      | some spec1 =>
        rw [hps] at hp
        dsimp only at hp
        rw [if_neg (by simp)] at hp
        obtain ⟨ha0, ha1, hpolT, hspec1, hv1⟩ :=
          specFromPolicyString_tokens t0 t1 t2 t3 stz spec1 hfree0 hfree1 hfree2 hps
        have hna : spec1.name = t3 := congrArg NodeGroupSpec.name hspec1
        have hta : spec1.taints = [] := congrArg NodeGroupSpec.taints hspec1
        have hla : spec1.labels = none := congrArg NodeGroupSpec.labels hspec1
        have hsd : spec1.scaleDownPolicy = t2 := congrArg NodeGroupSpec.scaleDownPolicy hspec1
        have hminle : spec1.minSize ≤ int64Max := (goAtoi_ok_range t0 _ ha0).2
        have hmaxle : spec1.maxSize ≤ int64Max := (goAtoi_ok_range t1 _ ha1).2
        have hpolD : spec1.scaleDownPolicy = policyDelete
            ∨ spec1.scaleDownPolicy = policyDeallocate := by
          rcases hpolT with h | h
          · exact Or.inl (hsd.trans h)
          · exact Or.inr (hsd.trans h)
        have hnameF : ':' ∉ spec1.name := by rw [hna]; exact hfree3
        have htaF : '|' ∉ spec1.taints := by rw [hta]; simp
        have hsp2 : spec = spec1 := by
          injection hp with h
          exact h.symm
        subst hsp2
        apply serialize_reparse
        · exact hv1
        · exact hminle
        · exact hmaxle
        · exact hpolD
        · exact hnameF
        · intro m hm
          rw [hla] at hm
          cases hm
        · exact htaF
    · obtain ⟨t0, t1, t2, t3, t4, heq⟩ := list_len_five _ h5eq
      have hfree : ∀ t ∈ ([t0, t1, t2, t3] : List Str), ':' ∉ t := by
        intro t ht
        apply goSplitN_dropLast_no_sep 5 value ':'
        rw [heq]
        exact ht
      have hfree0 : ':' ∉ t0 := hfree t0 (by simp)
      have hfree1 : ':' ∉ t1 := hfree t1 (by simp)
      have hfree2 : ':' ∉ t2 := hfree t2 (by simp)
      have hfree3 : ':' ∉ t3 := hfree t3 (by simp)
      unfold SpecFromStringWithLabelsAndTaints at hp
      dsimp only at hp
      rw [heq] at hp
      rw [if_neg (by simp), if_neg (by simp)] at hp
      rw [show (([t0, t1, t2, t3, t4] : List Str).take 4) = [t0, t1, t2, t3] from rfl] at hp
      cases hps : SpecFromPolicyString (goJoin [t0, t1, t2, t3] ':') stz with
      | none => rw [hps] at hp; cases hp
      | some spec1 =>
        rw [hps] at hp
        dsimp only at hp
        rw [if_pos (by simp)] at hp
        rw [show (([t0, t1, t2, t3, t4] : List Str).getD 4 ([] : Str)) = t4 from rfl] at hp
        obtain ⟨ha0, ha1, hpolT, hspec1, hv1⟩ :=
          specFromPolicyString_tokens t0 t1 t2 t3 stz spec1 hfree0 hfree1 hfree2 hps
        have hna : spec1.name = t3 := congrArg NodeGroupSpec.name hspec1
        have hta : spec1.taints = [] := congrArg NodeGroupSpec.taints hspec1
        have hsd : spec1.scaleDownPolicy = t2 := congrArg NodeGroupSpec.scaleDownPolicy hspec1
        have hminle : spec1.minSize ≤ int64Max := (goAtoi_ok_range t0 _ ha0).2
        have hmaxle : spec1.maxSize ≤ int64Max := (goAtoi_ok_range t1 _ ha1).2
        have hpolD : spec1.scaleDownPolicy = policyDelete
            ∨ spec1.scaleDownPolicy = policyDeallocate := by
          rcases hpolT with h | h
          · exact Or.inl (hsd.trans h)
          · exact Or.inr (hsd.trans h)
        have hnameF : ':' ∉ spec1.name := by rw [hna]; exact hfree3
        have htaF : '|' ∉ spec1.taints := by rw [hta]; simp
        cases hsp : goSplit t4 '|' with
        | nil => exact absurd hsp (goSplit_ne_nil t4 '|')
        | cons u us =>
          rw [hsp] at hp
          rw [show ((u :: us).getD 0 ([] : Str)) = u from rfl] at hp
          cases hu : goJsonUnmarshalMap u with
          | none => rw [hu] at hp; cases hp
          | some labels =>
            rw [hu] at hp
            dsimp only at hp
            cases us with
            | nil =>
              rw [if_neg (by simp)] at hp
              have hsp2 : spec = { spec1 with labels := labels } := by
                injection hp with h
                exact h.symm
              subst hsp2
              apply serialize_reparse
              · exact hv1
              · exact hminle
              · exact hmaxle
              · exact hpolD
              · exact hnameF
              · intro m hm
                have hm2 : labels = some m := hm
                refine ⟨goJsonUnmarshalMap_sorted u m (by rw [hu, hm2]), ?_⟩
                have hp2 : ∀ kv ∈ labels.getD ([] : List (Str × Str)),
                    '|' ∉ kv.1 ∧ '|' ∉ kv.2 := hpipe
                rw [hm2] at hp2
                simpa using hp2
              · exact htaF
            | cons w ws =>
              rw [if_pos (by simp)] at hp
              rw [show ((u :: w :: ws).getD 1 ([] : Str)) = w from rfl] at hp
              have hw_pipe : '|' ∉ w :=
                goSplit_mem_no_sep t4 '|' w
                  (by rw [hsp]; exact List.mem_cons_of_mem _ (List.mem_cons_self _ _))
              have hsp2 : spec
                  = { { spec1 with labels := labels } with taints := w } := by
                injection hp with h
                exact h.symm
              subst hsp2
              apply serialize_reparse
              · exact hv1
              · exact hminle
              · exact hmaxle
              · exact hpolD
              · exact hnameF
              · intro m hm
                have hm2 : labels = some m := hm
                refine ⟨goJsonUnmarshalMap_sorted u m (by rw [hu, hm2]), ?_⟩
                have hp2 : ∀ kv ∈ labels.getD ([] : List (Str × Str)),
                    '|' ∉ kv.1 ∧ '|' ∉ kv.2 := hpipe
                rw [hm2] at hp2
                simpa using hp2
              · exact hw_pipe

/-- A value accepted through the three-token legacy path, for the C6
counterexample. -/
def c6LegacyValue : Str := str "1:50:aks-nodepool-1"

/-- The serialization the legacy-form spec produces, with an empty policy
slot: reparsing it fails. -/
def c6LegacySerialized : Str := str "1:50::aks-nodepool-1:\x7b\x7d|"

/-- An extended-form value whose label value carries a pipe through the
JSON | escape. -/
def c6PipeValue : Str := str "1:50:Delete:poolA:\x7b\"k\":\"a\\u007cb\"\x7d|"

/-- The spec c6PipeValue parses to: the escape has decoded to a literal
pipe inside the label value. -/
def c6PipeSpec : NodeGroupSpec :=
  { name := str "poolA", minSize := 1, maxSize := 50, taints := [],
    labels := some [(str "k", str "a|b")], scaleDownPolicy := str "Delete",
    supportScaleToZero := false }

/-- Its serialization: json.Marshal emits the pipe verbatim, so the labels
token is split at it on reparse. -/
def c6PipeSerialized : Str := str "1:50:Delete:poolA:\x7b\"k\":\"a|b\"\x7d|"

/-- C6 counterexample, refuting the claimed universal round-trip twice: a
spec accepted through the three-token legacy form serializes with an empty
policy slot that SpecFromStringWithLabelsAndTaints rejects, and an
extended-form spec whose label value contains a pipe (accepted via the
JSON | escape) serializes with that pipe verbatim, splitting the
labels token so the reparse fails. -/
theorem specFromStringWithLabelsAndTaints_no_roundtrip_counterexample :
    ((SpecFromStringWithLabelsAndTaints c6LegacyValue false).isSome = true
    ∧ Option.map (fun s => NodeGroupSpec.StringWithLabelsAndTaints s)
        (SpecFromStringWithLabelsAndTaints c6LegacyValue false)
      = some c6LegacySerialized
    ∧ SpecFromStringWithLabelsAndTaints c6LegacySerialized false = none)
    ∧ (SpecFromStringWithLabelsAndTaints c6PipeValue false = some c6PipeSpec
    ∧ c6PipeSpec.StringWithLabelsAndTaints = c6PipeSerialized
    ∧ SpecFromStringWithLabelsAndTaints c6PipeSerialized false = none) := by
  refine ⟨⟨by decide, by decide, by decide⟩, by decide, by decide, by decide⟩

/-- Concrete five-token input for the round-trip witness. -/
def c6Value : Str := str "1:50:Delete:poolA:null|t1"

/-- The spec c6Value parses to. -/
def c6Spec : NodeGroupSpec :=
  { name := str "poolA", minSize := 1, maxSize := 50, taints := str "t1",
    labels := none, scaleDownPolicy := str "Delete", supportScaleToZero := false }

/-- Witness for the C6 round-trip theorem at a concrete five-token
input. -/
theorem specFromStringWithLabelsAndTaints_roundtrip_witness :
    SpecFromStringWithLabelsAndTaints c6Value false = some c6Spec
    ∧ (goSplitN c6Value ':' 5).length ≠ 3
    ∧ (∀ kv ∈ c6Spec.labels.getD ([] : List (Str × Str)), '|' ∉ kv.1 ∧ '|' ∉ kv.2)
    ∧ SpecFromStringWithLabelsAndTaints c6Spec.StringWithLabelsAndTaints
        c6Spec.supportScaleToZero
      = some { c6Spec with labels := some (c6Spec.labels.getD []) } :=
  ⟨by decide, by decide, by decide,
    specFromStringWithLabelsAndTaints_roundtrip c6Value false c6Spec
      (by decide) (by decide) (by decide)⟩
